import Mathlib

/-!
Verification development for the kyoon-RareHiggsRun3 repository.

The Python sources are shallowly embedded:
  * `src/JPsiCC/analysis/rdfdefines.py` (cut-flow bookkeeping and RDF stages),
  * `src/python-package/kytools/rootpdf.py` (the `FittingTool` class),
  * `src/JPsiCC/housekeeping/branchlist.py` (`make_json`).

Python numbers are modelled as `Int` (int) and `Rat` (float, ignoring IEEE
rounding, which no claim depends on); Python dicts as insertion-ordered
association lists with Python's update-in-place / append-at-end semantics;
raising as `Except`.  External framework code (ROOT / RooFit / cling) is
modelled by explicit oracles or by total column operations, as noted at each
definition.
-/

/-- A Python runtime error class (messages are not modelled). -/
inductive PyErr where
  | typeError : PyErr
  | valueError : PyErr
  | keyError : PyErr
deriving DecidableEq, Repr

/-- A Python value, restricted to the types the embedded functions receive.
`bool` is kept separate because `type(x) is int` distinguishes it from `int`
while `isinstance(x, (int, float))` does not.  `decimal` models
`decimal.Decimal`: a numeric type that is order-comparable with `int` and
`float` but is an instance of neither. -/
inductive PyVal where
  | int : Int → PyVal
  | float : Rat → PyVal
  | bool : Bool → PyVal
  | str : String → PyVal
  | decimal : Rat → PyVal
  | none : PyVal
deriving DecidableEq, Repr

/-- `type(x) is int` (false for `bool`, which is a distinct type). -/
def pyTypeIsInt : PyVal → Bool
  | .int _ => true
  | _ => false

/-- `type(x) is str`. -/
def pyTypeIsStr : PyVal → Bool
  | .str _ => true
  | _ => false

/-- `isinstance(x, (int, float))`; true for `bool` (a subclass of `int`). -/
def pyIsNumeric : PyVal → Bool
  | .int _ => true
  | .float _ => true
  | .bool _ => true
  | _ => false

/-- `float(x)` for the numeric values (`float(True) == 1.0`). -/
def pyFloat : PyVal → Rat
  | .int i => (i : Rat)
  | .float q => q
  | .bool b => if b then 1 else 0
  | _ => 0

/-- The numeric content of a Python value, when it is order-comparable with
numbers (`decimal.Decimal` compares numerically with `int` and `float`). -/
def pyNumContent : PyVal → Option Rat
  | .int i => some (i : Rat)
  | .float q => some q
  | .bool b => some (if b then 1 else 0)
  | .decimal q => some q
  | _ => Option.none

/-- Python `a < b`: numeric comparison when both sides are number-like
(including `decimal.Decimal`), string comparison for two strings, and a
`TypeError` for unordered combinations. -/
def pyLt (a b : PyVal) : Except PyErr Bool :=
  match pyNumContent a, pyNumContent b with
  | some x, some y => .ok (decide (x < y))
  | _, _ =>
    match a, b with
    | .str s, .str t => .ok (decide (s < t))
    | _, _ => .error .typeError

/-- Decimal digits of `n`, least significant first, computed with explicit
fuel so that the definition reduces by `rfl`/`decide`.  Empty for `n = 0`. -/
def decDigits : Nat → Nat → List Nat
  | 0, _ => []
  | fuel + 1, n => if n = 0 then [] else n % 10 :: decDigits fuel (n / 10)

/-- Value of a least-significant-first digit list. -/
def digitsVal : List Nat → Nat
  | [] => 0
  | d :: ds => d + 10 * digitsVal ds

theorem digitsVal_decDigits (fuel n : Nat) (h : n < fuel) :
    digitsVal (decDigits fuel n) = n := by
  induction fuel generalizing n with
  | zero => omega
  | succ fuel ih =>
    by_cases h0 : n = 0
    · simp [decDigits, digitsVal, h0]
    · have hlt : n / 10 < fuel := by omega
      simp only [decDigits, h0, if_false, digitsVal, ih (n / 10) hlt]
      omega

/-- Characters produced by small digits ('0'–'9'). -/
def digitCh (d : Nat) : Char := Char.ofNat (48 + d)

/-- Python `str(n)` for a nonnegative integer `n`: canonical base-10
representation (CPython's `int.__repr__` restricted to naturals). -/
def pyNatStr (n : Nat) : List Char :=
  if n = 0 then [digitCh 0] else ((decDigits (n + 1) n).map digitCh).reverse

/-- Python `str(n)` for an arbitrary integer. -/
def pyIntStr (n : Int) : List Char :=
  if n < 0 then '-' :: pyNatStr n.natAbs else pyNatStr n.toNat

/-- Inverse of `digitCh` on decimal digits. -/
def chVal (c : Char) : Nat := c.toNat - 48

theorem chVal_digitCh {d : Nat} (hd : d < 10) : chVal (digitCh d) = d := by
  interval_cases d <;> decide

theorem decDigits_lt (fuel n : Nat) : ∀ d ∈ decDigits fuel n, d < 10 := by
  induction fuel generalizing n with
  | zero => intro d hd; simp [decDigits] at hd
  | succ fuel ih =>
    intro d hd
    by_cases h0 : n = 0
    · simp [decDigits, h0] at hd
    · simp only [decDigits, h0, if_false, List.mem_cons] at hd
      rcases hd with h | h
      · omega
      · exact ih (n / 10) d h

theorem decDigits_ne_space (fuel n : Nat) :
    ∀ c ∈ (decDigits fuel n).map digitCh, c ≠ ' ' := by
  intro c hc
  simp only [List.mem_map] at hc
  obtain ⟨d, hd, rfl⟩ := hc
  have : d < 10 := decDigits_lt fuel n d hd
  interval_cases d <;> decide

/-- No character of `pyNatStr n` is a space. -/
theorem pyNatStr_ne_space (n : Nat) : ∀ c ∈ pyNatStr n, c ≠ ' ' := by
  intro c hc
  unfold pyNatStr at hc
  by_cases h0 : n = 0
  · simp [h0] at hc
    subst hc; decide
  · simp only [h0, if_false, List.mem_reverse] at hc
    exact decDigits_ne_space (n + 1) n c hc

/-- Digit lists with digits below 10 are recovered from their character
images by `chVal`. -/
theorem map_chVal_map_digitCh (xs : List Nat) (hx : ∀ d ∈ xs, d < 10) :
    (xs.map digitCh).map chVal = xs := by
  induction xs with
  | nil => rfl
  | cons a as ih =>
    have ha : a < 10 := hx a (by simp)
    simp [chVal_digitCh ha, ih (fun d hd => hx d (by simp [hd]))]

/-- `pyNatStr` is injective (distinct naturals print differently). -/
theorem pyNatStr_inj {m n : Nat} (h : pyNatStr m = pyNatStr n) : m = n := by
  have key : ∀ a b : Nat, pyNatStr a = pyNatStr b → a ≠ 0 → b ≠ 0 → a = b := by
    intro a b hab ha hb
    simp only [pyNatStr, ha, hb, if_false] at hab
    have h1 := List.reverse_injective hab
    have h2 := congrArg (List.map chVal) h1
    rw [map_chVal_map_digitCh _ (decDigits_lt _ _),
        map_chVal_map_digitCh _ (decDigits_lt _ _)] at h2
    have hav : digitsVal (decDigits (a + 1) a) = a := digitsVal_decDigits _ _ (by omega)
    have hbv : digitsVal (decDigits (b + 1) b) = b := digitsVal_decDigits _ _ (by omega)
    rw [h2, hbv] at hav
    exact hav.symm
  have zcase : ∀ a : Nat, a ≠ 0 → pyNatStr a ≠ pyNatStr 0 := by
    intro a ha hcontra
    simp only [pyNatStr, ha, if_false, if_true] at hcontra
    have h1 : (decDigits (a + 1) a).map digitCh = [digitCh 0] := by
      have := congrArg List.reverse hcontra
      simpa using this
    have h2 := congrArg (List.map chVal) h1
    rw [map_chVal_map_digitCh _ (decDigits_lt _ _)] at h2
    have hav : digitsVal (decDigits (a + 1) a) = a := digitsVal_decDigits _ _ (by omega)
    rw [h2] at hav
    simp [digitsVal, chVal, digitCh] at hav
    omega
  by_cases hm : m = 0 <;> by_cases hn : n = 0
  · omega
  · exact absurd h.symm (by subst hm; exact zcase n hn)
  · exact absurd h (by subst hn; exact zcase m hm)
  · exact key m n h hm hn

/-- A Python `dict(str: float)` with insertion order: an association list in
which keys are unique by construction of `dictInsert`. -/
abbrev PyDict := List (String × Rat)

/-- Python `d[k] = v`: replace the value at an existing key in place,
otherwise append the pair at the end (CPython's ordered-dict semantics). -/
def dictInsert (d : PyDict) (k : String) (v : Rat) : PyDict :=
  if (d.map Prod.fst).contains k then
    d.map (fun p => if p.1 = k then (k, v) else p)
  else d ++ [(k, v)]

/-- `len(d)`. -/
def dictLen (d : PyDict) : Nat := d.length

/-- The key `f'#{n} {s}'` built by `add_cut_flow` in
`src/JPsiCC/analysis/rdfdefines.py` (line 68). -/
def keyString (n : Nat) (s : String) : String :=
  String.mk ('#' :: pyNatStr n ++ ' ' :: s.data)

/-- `add_cut_flow(cut_flow_dict, cut_str, cut_nentries)`
(`rdfdefines.py` lines 48–69): raise `TypeError` unless `cut_str` is a
`str`; raise `TypeError` unless `cut_nentries` is `int` or `float`;
otherwise store `float(cut_nentries)` under the key `f'#{len(d)} {cut_str}'`
and return the (mutated) dictionary. -/
def add_cut_flow (d : PyDict) (cut_str cut_nentries : PyVal) :
    Except PyErr PyDict :=
  if ¬ pyTypeIsStr cut_str then .error .typeError
  else if ¬ pyIsNumeric cut_nentries then .error .typeError
  else
    match cut_str with
    | .str s => .ok (dictInsert d (keyString (dictLen d) s) (pyFloat cut_nentries))
    | _ => .error .typeError

/-- Reference-level version of `add_cut_flow`: the heap is a list of dict
objects, a dict argument is a reference into it, and the function body
mutates the referenced dict and returns the same reference
(`return cut_flow_dict`, line 69). -/
def add_cut_flow_ref (heap : List PyDict) (r : Nat) (cut_str cut_nentries : PyVal) :
    Except PyErr (List PyDict × Nat) :=
  match heap[r]? with
  | Option.none => .error .keyError
  | some d =>
    match add_cut_flow d cut_str cut_nentries with
    | .error e => .error e
    | .ok d2 => .ok (heap.set r d2, r)

/-- Splitting at the first space: space-free segments before an explicit
space determine each other. -/
theorem space_split {a b s t : List Char}
    (ha : ∀ c ∈ a, c ≠ ' ') (hb : ∀ c ∈ b, c ≠ ' ')
    (h : a ++ ' ' :: s = b ++ ' ' :: t) : a = b ∧ s = t := by
  induction a generalizing b with
  | nil =>
    cases b with
    | nil => simpa using h
    | cons x xs =>
      simp only [List.nil_append, List.cons_append, List.cons.injEq] at h
      exact absurd h.1.symm (hb x (by simp))
  | cons x xs ih =>
    cases b with
    | nil =>
      simp only [List.nil_append, List.cons_append, List.cons.injEq] at h
      exact absurd h.1 (ha x (by simp))
    | cons y ys =>
      simp only [List.cons_append, List.cons.injEq] at h
      obtain ⟨rfl, h2⟩ := h
      have := ih (fun c hc => ha c (by simp [hc])) (fun c hc => hb c (by simp [hc])) h2
      exact ⟨by rw [this.1], this.2⟩

/-- The ordinal-prefixed keys are injective in both arguments. -/
theorem keyString_inj {i j : Nat} {s t : String}
    (h : keyString i s = keyString j t) : i = j ∧ s = t := by
  have hd : ('#' :: pyNatStr i ++ ' ' :: s.data) = ('#' :: pyNatStr j ++ ' ' :: t.data) := by
    have := congrArg String.data h
    simpa [keyString] using this
  simp only [List.cons_append, List.cons.injEq, true_and] at hd
  have := space_split (pyNatStr_ne_space i) (pyNatStr_ne_space j) hd
  refine ⟨pyNatStr_inj this.1, ?_⟩
  exact congrArg String.mk this.2

/-- A cut-flow dictionary in canonical form: its `i`-th entry carries the
ordinal prefix `#i`, exactly the shape produced by repeated `add_cut_flow`
calls starting from the empty dict. -/
def CanonicalCutFlow (d : PyDict) : Prop :=
  ∀ i (h : i < d.length), ∃ s, (d.get ⟨i, h⟩).1 = keyString i s

/-- On a canonical dict the next ordinal key is fresh, so the Python dict
assignment appends. -/
theorem dictInsert_canonical_append (d : PyDict) (hcan : CanonicalCutFlow d)
    (s : String) (v : Rat) :
    dictInsert d (keyString d.length s) v = d ++ [(keyString d.length s, v)] := by
  unfold dictInsert
  have hfresh : ((d.map Prod.fst).contains (keyString d.length s)) = false := by
    rw [List.contains_eq_any_beq]
    simp only [List.any_eq_false]
    intro k hk
    simp only [List.mem_map] at hk
    obtain ⟨p, hp, rfl⟩ := hk
    obtain ⟨i, hpi⟩ := List.mem_iff_get.mp hp
    obtain ⟨t, ht⟩ := hcan i.1 i.2
    intro hbeq
    have heq : keyString d.length s = p.1 := eq_of_beq hbeq
    rw [← hpi] at heq
    have h2 : keyString d.length s = keyString i.1 t := by
      rw [heq]
      exact ht
    have hii := (keyString_inj h2).1
    have hlt := i.2
    omega
  rw [hfresh]
  simp

/-- Appending the next ordinal entry preserves canonical form. -/
theorem CanonicalCutFlow.append (d : PyDict) (hcan : CanonicalCutFlow d)
    (s : String) (v : Rat) :
    CanonicalCutFlow (d ++ [(keyString d.length s, v)]) := by
  intro i hi
  have hi' : i < d.length + 1 := by simpa using hi
  by_cases hlt : i < d.length
  · obtain ⟨t, ht⟩ := hcan i hlt
    refine ⟨t, ?_⟩
    have hg : (d ++ [(keyString d.length s, v)]).get ⟨i, hi⟩ = d.get ⟨i, hlt⟩ := by
      simp [List.get_eq_getElem, List.getElem_append_left, hlt]
    rw [hg]
    exact ht
  · have hieq : i = d.length := by omega
    subst hieq
    refine ⟨s, ?_⟩
    have hg : (d ++ [(keyString d.length s, v)]).get ⟨d.length, hi⟩ = (keyString d.length s, v) := by
      simp [List.get_eq_getElem]
    rw [hg]

/-- The empty dict is canonical. -/
theorem CanonicalCutFlow.nil : CanonicalCutFlow [] := by
  intro i hi
  simp at hi

/-- A row of an RDataFrame.  Every column is an `RVec`-style vector of
numbers; scalar columns hold one element.  Missing columns read as `[]`. -/
abbrev Row := String → List Rat

/-- An RDataFrame: its rows.  Lazy evaluation is irrelevant to the claims,
so the dataframe is its materialised row list. -/
abbrev RDF := List Row

/-- `rdf.Define(name, expr)`: add (or shadow) a column computed per row. -/
def rdfDefine (rdf : RDF) (name : String) (f : Row → List Rat) : RDF :=
  rdf.map (fun r => fun s => if s = name then f r else r s)

/-- `rdf.Filter(pred)`: keep the rows satisfying the predicate. -/
def rdfFilter (rdf : RDF) (p : Row → Bool) : RDF := rdf.filter p

/-- A scalar column read: the single element of the column vector. -/
def colScalar (r : Row) (name : String) : Rat := (r name).headD 0

/-- `rdf.Sum('w').GetValue()`: the sum of the scalar column `w`. -/
def rdfSumW (rdf : RDF) : Rat := (rdf.map (fun r => colScalar r "w")).sum

/-- C++ `RVec` indexing with a constant index (out-of-range access is
undefined behaviour in C++; modelled as 0). -/
def rvecIndexNat (l : List Rat) (i : Nat) : Rat := l.getD i 0

/-- `RVec` indexing with a computed (integral-valued) index. -/
def rvecIndexQ (l : List Rat) (i : Rat) : Rat := rvecIndexNat l i.floor.toNat

/-- `vals[mask]`: `RVec` masked selection. -/
def maskSelect (vals mask : List Rat) : List Rat :=
  ((vals.zip mask).filter (fun p => decide (p.2 ≠ 0))).map Prod.fst

/-- `filter_rdf(rdf, cut_flow_dict, cut, description, filter=True)`
(`rdfdefines.py` lines 13–30).  `cutPred` is the framework's compilation of
the expression string `cut`; `description` is the cosmetic filter label. -/
def filter_rdf (rdf : RDF) (cfd : PyDict) (cut : String) (cutPred : Row → Bool)
    (description : String) (filt : Bool) : Except PyErr (RDF × PyDict) :=
  let new_rdf := if filt then rdfFilter rdf cutPred else rdf
  if filt then
    match add_cut_flow cfd (.str cut) (.float (rdfSumW new_rdf)) with
    | .error e => .error e
    | .ok d2 => .ok (new_rdf, d2)
  else .ok (new_rdf, cfd)

/-- On a `str` cut and `float` count, `add_cut_flow` never raises. -/
theorem add_cut_flow_str_float (d : PyDict) (s : String) (q : Rat) :
    add_cut_flow d (.str s) (.float q) =
      .ok (dictInsert d (keyString (dictLen d) s) q) := rfl

/-- `rdf_def_triggers(rdf, CAT, YEAR, branches, cut_flow_dict, filter=True)`
(`rdfdefines.py` lines 178–221).  The `match f'{CAT}_{YEAR}'` admits only
`'GF_2018'` and otherwise raises `ValueError` before touching any argument.
The `try` branch is modelled (a fresh `Define('trigger', ...)` succeeds on
NanoAOD inputs; the `except` fallback renames the column). -/
def rdf_def_triggers (rdf : RDF) (CAT : String) (YEAR : Int)
    (branches : List String) (cfd : PyDict) (filt : Bool) :
    Except PyErr (RDF × List String × PyDict) :=
  if CAT ++ "_" ++ String.mk (pyIntStr YEAR) = "GF_2018" then
    let new1 := rdfDefine rdf "trigger" (fun r => r "HLT_Dimuon25_Jpsi")
    if filt then
      let new2 := rdfFilter new1 (fun r => decide (0 < colScalar r "trigger"))
      match add_cut_flow cfd (.str "trigger") (.float (rdfSumW new2)) with
      | .error e => .error e
      | .ok d2 => .ok (new2, branches ++ ["trigger"], d2)
    else .ok (new1, branches ++ ["trigger"], cfd)
  else .error .valueError

/-- `rdf_def_vertex(rdf, branches, cut_flow_dict, filter=True)`
(`rdfdefines.py` lines 267–288).  The `Filter` is guarded by `filter`, but
the `add_cut_flow` call on line 286 is unconditional.  `vertexBranches`
stands for `get_rdf_branches('vertex')`, read from `rdf_hists.json` (a data
file outside `src/`). -/
def rdf_def_vertex (rdf : RDF) (branches : List String) (cfd : PyDict)
    (vertexBranches : List String) (filt : Bool) :
    Except PyErr (RDF × List String × PyDict) :=
  let new_rdf := if filt then rdfFilter rdf (fun r => decide (0 < colScalar r "PV_npvsGood")) else rdf
  match add_cut_flow cfd (.str "PV_npvsGood>0") (.float (rdfSumW new_rdf)) with
  | .error e => .error e
  | .ok d2 => .ok (new_rdf, branches ++ vertexBranches, d2)

/-- `rdf_def_jpsi(rdf, branches, cut_flow_dict, filter=True)`
(`rdfdefines.py` lines 223–244).  `deltaR` is the user C++ function compiled
from `functions.cc` (not under `src/`); `jpsiBranches` stands for
`get_rdf_branches('Jpsi')`. -/
def rdf_def_jpsi (rdf : RDF) (branches : List String) (cfd : PyDict)
    (deltaR : Rat → Rat → Rat → Rat → Rat) (jpsiBranches : List String)
    (filt : Bool) : Except PyErr (RDF × List String × PyDict) :=
  match filter_rdf rdf cfd "nJpsi>0" (fun r => decide (0 < colScalar r "nJpsi"))
      "Event must contain at least one J/psi with the given purity criteria." filt with
  | .error e => .error e
  | .ok (new1, cfd1) =>
    let new2 := rdfDefine new1 "Jpsi_muon1_muon2_dR" (fun r =>
      [deltaR (rvecIndexNat (r "Jpsi_muon1_eta") 0) (rvecIndexNat (r "Jpsi_muon1_phi") 0)
              (rvecIndexNat (r "Jpsi_muon2_eta") 0) (rvecIndexNat (r "Jpsi_muon2_phi") 0)])
    .ok (new2, branches ++ jpsiBranches, cfd1)

/-- The good-jets mask `(Jet_pt > 30 && abs(Jet_eta) < 2.5 && Jet_btagDeepCvL > -1)`
(`rdfdefines.py` line 318), elementwise over the jet vectors. -/
def goodJetsMaskExpr (pt eta cvl : List Rat) : List Rat :=
  (pt.zip (eta.zip cvl)).map
    (fun p => if 30 < p.1 ∧ |p.2.1| < 5/2 ∧ -1 < p.2.2 then 1 else 0)

/-- A masked-then-indexed jet read `col[goodJets][index_CloseFar[k]]`. -/
def jetPick (r : Row) (col : String) (k : Nat) : Rat :=
  rvecIndexQ (maskSelect (r col) (r "goodJets")) (rvecIndexNat (r "index_CloseFar") k)

/-- `goodJetX[index_CloseFar[k]]` for an already-selected column. -/
def goodPick (r : Row) (col : String) (k : Nat) : Rat :=
  rvecIndexQ (r col) (rvecIndexNat (r "index_CloseFar") k)

/-- The block of `Define` calls on `rdfdefines.py` lines 327–345: selected
good-jet kinematics and per-index reads (the `goodJets` / `nGoodJets`
columns are already defined before the first jets filter, lines 321–323).
`jetCloseFar` is the user C++ function compiled from `functions.cc` (not
under `src/`), taking the four good-jet vectors and the four J/psi
kinematics. -/
def jetsDefineBlock1 (rdf : RDF)
    (jetCloseFar : List Rat → List Rat → List Rat → List Rat →
      List Rat → List Rat → List Rat → List Rat → List Rat) : RDF :=
  let s3 := rdfDefine rdf "goodJetPt" (fun r => maskSelect (r "Jet_pt") (r "goodJets"))
  let s4 := rdfDefine s3 "goodJetEta" (fun r => maskSelect (r "Jet_eta") (r "goodJets"))
  let s5 := rdfDefine s4 "goodJetPhi" (fun r => maskSelect (r "Jet_phi") (r "goodJets"))
  let s6 := rdfDefine s5 "goodJetMass" (fun r => maskSelect (r "Jet_mass") (r "goodJets"))
  let s7 := rdfDefine s6 "goodJetCvL" (fun r => maskSelect (r "Jet_btagDeepCvL") (r "goodJets"))
  let s8 := rdfDefine s7 "jet1_pt" (fun r => [rvecIndexNat (r "goodJetPt") 0])
  let s9 := rdfDefine s8 "jet2_pt" (fun r => [rvecIndexNat (r "goodJetPt") 1])
  let s10 := rdfDefine s9 "jet1_eta" (fun r => [rvecIndexNat (r "goodJetEta") 0])
  let s11 := rdfDefine s10 "jet2_eta" (fun r => [rvecIndexNat (r "goodJetEta") 1])
  let s12 := rdfDefine s11 "jet1_phi" (fun r => [rvecIndexNat (r "goodJetPhi") 0])
  let s13 := rdfDefine s12 "jet2_phi" (fun r => [rvecIndexNat (r "goodJetPhi") 1])
  let s14 := rdfDefine s13 "jet1_mass" (fun r => [rvecIndexNat (r "goodJetMass") 0])
  let s15 := rdfDefine s14 "jet2_mass" (fun r => [rvecIndexNat (r "goodJetMass") 1])
  let s16 := rdfDefine s15 "jet1_CvL" (fun r => [rvecIndexNat (r "goodJetCvL") 0])
  let s17 := rdfDefine s16 "jet2_CvL" (fun r => [rvecIndexNat (r "goodJetCvL") 1])
  rdfDefine s17 "index_CloseFar" (fun r =>
    jetCloseFar (r "goodJetPt") (r "goodJetEta") (r "goodJetPhi") (r "goodJetMass")
      (r "Jpsi_kin_pt") (r "Jpsi_kin_eta") (r "Jpsi_kin_phi") (r "Jpsi_kin_mass"))

/-- The block of `Define` calls on `rdfdefines.py` lines 349–362:
close/far-jet reads through `index_CloseFar`. -/
def jetsDefineBlock2 (rdf : RDF) : RDF :=
  let s1 := rdfDefine rdf "jetClose_nMuons" (fun r => [jetPick r "Jet_nMuons" 0])
  let s2 := rdfDefine s1 "jetFar_nMuons" (fun r => [jetPick r "Jet_nMuons" 1])
  let s3 := rdfDefine s2 "jetClose_nElectrons" (fun r => [jetPick r "Jet_nElectrons" 0])
  let s4 := rdfDefine s3 "jetFar_nElectrons" (fun r => [jetPick r "Jet_nElectrons" 1])
  let s5 := rdfDefine s4 "jetClose_pt" (fun r => [goodPick r "goodJetPt" 0])
  let s6 := rdfDefine s5 "jetFar_pt" (fun r => [goodPick r "goodJetPt" 1])
  let s7 := rdfDefine s6 "jetClose_cRegCorr" (fun r => [jetPick r "Jet_cRegCorr" 0])
  let s8 := rdfDefine s7 "jetFar_cRegCorr" (fun r => [jetPick r "Jet_cRegCorr" 1])
  let s9 := rdfDefine s8 "jetClose_CvL" (fun r => [goodPick r "goodJetCvL" 0])
  let s10 := rdfDefine s9 "jetFar_CvL" (fun r => [goodPick r "goodJetCvL" 1])
  let s11 := rdfDefine s10 "jetClose_nConst" (fun r => [jetPick r "Jet_nConstituents" 0])
  let s12 := rdfDefine s11 "jetFar_nConst" (fun r => [jetPick r "Jet_nConstituents" 1])
  rdfDefine s12 "jetClose_JpsiPtRatio"
    (fun r => [rvecIndexNat (r "Jpsi_kin_pt") 0 / goodPick r "goodJetPt" 0])

/-- The MC-only block of `Define` calls on `rdfdefines.py` lines 366–378
(parton flavours, charm/gluon far-jet kinematics, gen-jet scales). -/
def jetsDefineBlockMC (rdf : RDF) : RDF :=
  let s1 := rdfDefine rdf "goodPartonFlavour"
    (fun r => maskSelect (r "Jet_partonFlavour") (r "goodJets"))
  let s2 := rdfDefine s1 "jet1_partonFlavour" (fun r => [|rvecIndexNat (r "goodPartonFlavour") 0|])
  let s3 := rdfDefine s2 "jet2_partonFlavour" (fun r => [|rvecIndexNat (r "goodPartonFlavour") 1|])
  let s4 := rdfDefine s3 "jetFar_ptCharm" (fun r =>
    [if |goodPick r "goodPartonFlavour" 1| = 4 then jetPick r "Jet_cRegCorr" 1 * goodPick r "goodJetPt" 1 else -1])
  let s5 := rdfDefine s4 "jetFar_ptGluon" (fun r =>
    [if |goodPick r "goodPartonFlavour" 1| = 21 then jetPick r "Jet_cRegCorr" 1 * goodPick r "goodJetPt" 1 else -1])
  let s6 := rdfDefine s5 "jetFar_CvLCharm" (fun r =>
    [if |goodPick r "goodPartonFlavour" 1| = 4 then goodPick r "goodJetCvL" 1 else -1])
  let s7 := rdfDefine s6 "jetFar_CvLGluon" (fun r =>
    [if |goodPick r "goodPartonFlavour" 1| = 21 then goodPick r "goodJetCvL" 1 else -1])
  let s8 := rdfDefine s7 "jetClose_partonFlavour" (fun r => [|goodPick r "goodPartonFlavour" 0|])
  let s9 := rdfDefine s8 "jetFar_partonFlavour" (fun r => [|goodPick r "goodPartonFlavour" 1|])
  let s10 := rdfDefine s9 "jetClose_Scale" (fun r =>
    [goodPick r "goodJetPt" 0 / rvecIndexQ (r "GenJet_pt") (jetPick r "Jet_genJetIdx" 0)])
  let s11 := rdfDefine s10 "jetFar_Scale" (fun r =>
    [goodPick r "goodJetPt" 1 / rvecIndexQ (r "GenJet_pt") (jetPick r "Jet_genJetIdx" 1)])
  let s12 := rdfDefine s11 "jetClose_cRegCorrScale" (fun r =>
    [goodPick r "goodJetPt" 0 * jetPick r "Jet_cRegCorr" 0 / rvecIndexQ (r "GenJet_pt") (jetPick r "Jet_genJetIdx" 0)])
  rdfDefine s12 "jetFar_cRegCorrScale" (fun r =>
    [goodPick r "goodJetPt" 1 * jetPick r "Jet_cRegCorr" 1 / rvecIndexQ (r "GenJet_pt") (jetPick r "Jet_genJetIdx" 1)])

/-- `rdf_def_jets(rdf, CAT, YEAR, branches, cut_flow_dict, data=False, filter=True)`
(`rdfdefines.py` lines 290–382).  `load_functions('reco')` only compiles a
C++ macro and touches none of the arguments.  The `match f'{CAT}_{YEAR}'`
admits only `'GF_2018'` and otherwise raises `ValueError` before any
`Define`/`Filter`/`add_cut_flow`.  `jetBranches` / `jetMCBranches` stand for
`get_rdf_branches('jet')` / `get_rdf_branches('jet_mconly')`. -/
def rdf_def_jets (rdf : RDF) (CAT : String) (YEAR : Int)
    (branches : List String) (cfd : PyDict) (data filt : Bool)
    (jetCloseFar : List Rat → List Rat → List Rat → List Rat →
      List Rat → List Rat → List Rat → List Rat → List Rat)
    (jetBranches jetMCBranches : List String) :
    Except PyErr (RDF × List String × PyDict) :=
  if CAT ++ "_" ++ String.mk (pyIntStr YEAR) = "GF_2018" then
    let n1 := rdfDefine rdf "goodJets"
      (fun r => goodJetsMaskExpr (r "Jet_pt") (r "Jet_eta") (r "Jet_btagDeepCvL"))
    let n2 := rdfDefine n1 "nGoodJets" (fun r => [(r "goodJets").sum])
    match (if filt then
        let f1 := rdfFilter n2 (fun r => decide (2 ≤ colScalar r "nGoodJets"))
        match add_cut_flow cfd (.str "nGoodJets>=2") (.float (rdfSumW f1)) with
        | .error e => .error e
        | .ok d1 => .ok (f1, d1)
      else (.ok (n2, cfd) : Except PyErr (RDF × PyDict))) with
  | .error e => .error e
  | .ok (n3, cfd1) =>
    let n4 := jetsDefineBlock1 n3 jetCloseFar
    match (if filt then
        let f2 := rdfFilter n4 (fun r => decide (rvecIndexNat (r "index_CloseFar") 0 ≠ -1))
        match add_cut_flow cfd1 (.str "nCloseJets>0") (.float (rdfSumW f2)) with
        | .error e => .error e
        | .ok d2 => .ok (f2, d2)
      else (.ok (n4, cfd1) : Except PyErr (RDF × PyDict))) with
    | .error e => .error e
    | .ok (n5, cfd2) =>
      let n6 := jetsDefineBlock2 n5
      let branches1 := branches ++
        ["goodJets", "nGoodJets", "goodJetPt", "goodJetEta", "goodJetPhi",
         "goodJetMass", "goodJetCvL"] ++ jetBranches
      if data then .ok (n6, branches1, cfd2)
      else .ok (jetsDefineBlockMC n6, branches1 ++ ["goodPartonFlavour"] ++ jetMCBranches, cfd2)
  else .error .valueError

/-- One selection stage recorded through `filter_rdf`: the filter-expression
string, its cosmetic description, and the framework's compilation of the
expression into a row predicate. -/
structure Stage where
  cut : String
  descr : String
  pred : Row → Bool

/-- A sequence of selection stages, each applied with `filter_rdf(...,
filter=True)`, threading the dataframe and the cut-flow dict. -/
def runStages : RDF → PyDict → List Stage → Except PyErr (RDF × PyDict)
  | rdf, cfd, [] => .ok (rdf, cfd)
  | rdf, cfd, st :: rest =>
    match filter_rdf rdf cfd st.cut st.pred st.descr true with
    | .error e => .error e
    | .ok (rdf1, cfd1) => runStages rdf1 cfd1 rest

/-- The dataframe left after a stage sequence. -/
def finalRDF : RDF → List Stage → RDF
  | rdf, [] => rdf
  | rdf, st :: rest => finalRDF (rdfFilter rdf st.pred) rest

/-- The cut-flow entries a stage sequence generates, starting at ordinal
`n`: each stage records the weighted yield of its own filtered frame. -/
def buildEntries : Nat → RDF → List Stage → PyDict
  | _, _, [] => []
  | n, rdf, st :: rest =>
    (keyString n st.cut, rdfSumW (rdfFilter rdf st.pred)) ::
      buildEntries (n + 1) (rdfFilter rdf st.pred) rest

theorem runStages_eq (stages : List Stage) : ∀ (rdf : RDF) (cfd : PyDict),
    CanonicalCutFlow cfd →
    runStages rdf cfd stages = .ok (finalRDF rdf stages, cfd ++ buildEntries cfd.length rdf stages) := by
  induction stages with
  | nil => intro rdf cfd _; simp [runStages, finalRDF, buildEntries]
  | cons st rest ih =>
    intro rdf cfd hcan
    rw [runStages, filter_rdf]
    simp only [if_true]
    rw [add_cut_flow_str_float]
    have happ := dictInsert_canonical_append cfd hcan st.cut (rdfSumW (rdfFilter rdf st.pred))
    simp only [dictLen] at happ ⊢
    rw [happ]
    have hcan2 := CanonicalCutFlow.append cfd hcan st.cut (rdfSumW (rdfFilter rdf st.pred))
    rw [ih (rdfFilter rdf st.pred) _ hcan2]
    simp [finalRDF, buildEntries, List.append_assoc]

theorem buildEntries_length (stages : List Stage) :
    ∀ (n : Nat) (rdf : RDF), (buildEntries n rdf stages).length = stages.length := by
  induction stages with
  | nil => intro n rdf; rfl
  | cons st rest ih => intro n rdf; simp [buildEntries, ih]

theorem buildEntries_key (stages : List Stage) :
    ∀ (n : Nat) (rdf : RDF) (k : Nat) (hk : k < (buildEntries n rdf stages).length)
      (hk2 : k < stages.length),
      ((buildEntries n rdf stages).get ⟨k, hk⟩).1 = keyString (n + k) (stages.get ⟨k, hk2⟩).cut := by
  induction stages with
  | nil => intro n rdf k hk hk2; simp [buildEntries] at hk
  | cons st rest ih =>
    intro n rdf k hk hk2
    cases k with
    | zero => simp [buildEntries]
    | succ k =>
      have hk' : k < (buildEntries (n + 1) (rdfFilter rdf st.pred) rest).length := by
        simp [buildEntries] at hk
        simpa [buildEntries_length] using hk
      have hk2' : k < rest.length := by simpa using hk2
      have := ih (n + 1) (rdfFilter rdf st.pred) k hk' hk2'
      simp only [buildEntries, List.get_cons_succ]
      rw [this]
      congr 1
      omega

/-- Nonnegative event weights survive filtering. -/
theorem nonnegW_filter (rdf : RDF) (p : Row → Bool)
    (h : ∀ r ∈ rdf, 0 ≤ colScalar r "w") :
    ∀ r ∈ rdfFilter rdf p, 0 ≤ colScalar r "w" := by
  intro r hr
  exact h r (List.mem_of_mem_filter hr)

/-- With nonnegative weights, filtering cannot increase the weighted yield. -/
theorem rdfSumW_filter_le (rdf : RDF) (p : Row → Bool)
    (h : ∀ r ∈ rdf, 0 ≤ colScalar r "w") :
    rdfSumW (rdfFilter rdf p) ≤ rdfSumW rdf := by
  apply List.Sublist.sum_le_sum
  · exact List.Sublist.map _ (List.filter_sublist rdf)
  · intro a ha
    simp only [List.mem_map] at ha
    obtain ⟨r, hr, rfl⟩ := ha
    exact h r hr

theorem buildEntries_le (stages : List Stage) :
    ∀ (n : Nat) (rdf : RDF), (∀ r ∈ rdf, 0 ≤ colScalar r "w") →
      ∀ p ∈ buildEntries n rdf stages, p.2 ≤ rdfSumW rdf := by
  induction stages with
  | nil => intro n rdf _ p hp; simp [buildEntries] at hp
  | cons st rest ih =>
    intro n rdf hw p hp
    simp only [buildEntries, List.mem_cons] at hp
    rcases hp with rfl | hp
    · exact rdfSumW_filter_le rdf st.pred hw
    · have h1 := ih (n + 1) (rdfFilter rdf st.pred) (nonnegW_filter rdf st.pred hw) p hp
      exact le_trans h1 (rdfSumW_filter_le rdf st.pred hw)

theorem buildEntries_pairwise (stages : List Stage) :
    ∀ (n : Nat) (rdf : RDF), (∀ r ∈ rdf, 0 ≤ colScalar r "w") →
      List.Pairwise (fun a b => b.2 ≤ a.2) (buildEntries n rdf stages) := by
  induction stages with
  | nil => intro n rdf _; simp [buildEntries]
  | cons st rest ih =>
    intro n rdf hw
    simp only [buildEntries, List.pairwise_cons]
    constructor
    · intro p hp
      exact buildEntries_le rest (n + 1) (rdfFilter rdf st.pred)
        (nonnegW_filter rdf st.pred hw) p hp
    · exact ih (n + 1) (rdfFilter rdf st.pred) (nonnegW_filter rdf st.pred hw)

/-- Rows used in concrete cut-flow evaluations: a weight-one row. -/
def rowPlus : Row := fun s => if s = "w" then [1] else []

/-- Rows used in concrete cut-flow evaluations: a weight-minus-one row
(negative event weights arise from NLO `genWeight`; nothing in the code
constrains the sign of `w`). -/
def rowMinus : Row := fun s => if s = "w" then [-1] else []

/-- A two-stage selection: first keep everything, then keep only rows of
positive weight. -/
def cexStages : List Stage :=
  [⟨"all", "keep everything", fun _ => true⟩,
   ⟨"positive", "keep positive weight", fun r => decide (0 < colScalar r "w")⟩]

/-- C1 (counterexample): on a dataframe holding weights `1` and `-1`, the
two recorded weighted yields are `0` then `1` — the values along the entry
order increase, so the claimed monotone non-increase is false. -/
theorem cutflow_monotone_counterexample :
    (runStages [rowPlus, rowMinus] [] cexStages).map Prod.snd =
      Except.ok [(keyString 0 "all", 0), (keyString 1 "positive", 1)] ∧
    ¬ ((1 : Rat) ≤ (0 : Rat)) := by
  constructor
  · rw [runStages_eq cexStages _ _ CanonicalCutFlow.nil]
    simp only [Except.map, List.nil_append, List.length_nil]
    simp [buildEntries, cexStages, rdfFilter, rdfSumW, colScalar, rowPlus, rowMinus,
      List.filter_cons, List.filter_nil]
  · norm_num

/-- C1 (amended): for every stage sequence recorded through `filter_rdf`
and `add_cut_flow` starting from an empty dict, the Nth entry added carries
the ordinal `N` in its key prefix; and, provided every event weight is
nonnegative, the weighted yields along that order are monotonically
non-increasing.  (The unamended claim omits the nonnegativity proviso;
`cutflow_monotone_counterexample` shows it is needed.) -/
theorem cutflow_ordinal_and_monotone_amended (rdf : RDF) (stages : List Stage) :
    runStages rdf [] stages = .ok (finalRDF rdf stages, buildEntries 0 rdf stages) ∧
    (buildEntries 0 rdf stages).length = stages.length ∧
    (∀ k (hk : k < (buildEntries 0 rdf stages).length) (hk2 : k < stages.length),
      ((buildEntries 0 rdf stages).get ⟨k, hk⟩).1 = keyString k (stages.get ⟨k, hk2⟩).cut) ∧
    ((∀ r ∈ rdf, 0 ≤ colScalar r "w") →
      ∀ i j (hi : i < (buildEntries 0 rdf stages).length)
        (hj : j < (buildEntries 0 rdf stages).length), i ≤ j →
        ((buildEntries 0 rdf stages).get ⟨j, hj⟩).2 ≤ ((buildEntries 0 rdf stages).get ⟨i, hi⟩).2) := by
  refine ⟨?_, buildEntries_length stages 0 rdf, ?_, ?_⟩
  · have := runStages_eq stages rdf [] CanonicalCutFlow.nil
    simpa using this
  · intro k hk hk2
    have := buildEntries_key stages 0 rdf k hk hk2
    simpa using this
  · intro hw i j hi hj hij
    have hpw := buildEntries_pairwise stages 0 rdf hw
    rcases Nat.lt_or_ge i j with hlt | hge
    · exact (List.pairwise_iff_get.mp hpw) ⟨i, hi⟩ ⟨j, hj⟩ hlt
    · have : i = j := by omega
      subst this
      rfl

/-- C1 (witness): the amended theorem applied to the one-positive-row
dataframe; both recorded yields are `1` and the second is `≤` the first. -/
theorem cutflow_ordinal_and_monotone_witness :
    ((buildEntries 0 [rowPlus] cexStages).get
        ⟨1, by decide⟩).2 ≤ ((buildEntries 0 [rowPlus] cexStages).get ⟨0, by decide⟩).2 := by
  have h := (cutflow_ordinal_and_monotone_amended [rowPlus] cexStages).2.2.2
  exact h (by intro r hr; simp only [List.mem_singleton] at hr; subst hr; norm_num [rowPlus, colScalar])
    0 1 (by decide) (by decide) (by omega)

/-- On a `str` cut and any numeric count, `add_cut_flow` stores the float
value under the next ordinal key. -/
theorem add_cut_flow_numeric (d : PyDict) (s : String) (v : PyVal)
    (hv : pyIsNumeric v = true) :
    add_cut_flow d (.str s) v =
      .ok (dictInsert d (keyString (dictLen d) s) (pyFloat v)) := by
  cases v <;> simp_all [add_cut_flow, pyIsNumeric, pyTypeIsStr]

/-- C7: `add_cut_flow` stores `float(cut_nentries)` under the key formed by
prefixing `cut_str` with the ordinal `len(d)` whenever `cut_str` is a `str`
and `cut_nentries` is an instance of `int` or `float`; it raises
`TypeError` when `cut_str` is not a `str`, and `TypeError` when
`cut_nentries` is not numeric. -/
theorem add_cut_flow_spec (d : PyDict) (s : String) (v cs : PyVal) :
    (pyIsNumeric v = true →
      add_cut_flow d (.str s) v = .ok (dictInsert d (keyString (dictLen d) s) (pyFloat v))) ∧
    (pyTypeIsStr cs = false → add_cut_flow d cs v = .error .typeError) ∧
    (pyIsNumeric v = false → add_cut_flow d (.str s) v = .error .typeError) := by
  refine ⟨fun hv => add_cut_flow_numeric d s v hv, ?_, ?_⟩
  · intro hcs
    cases cs <;> simp_all [add_cut_flow, pyTypeIsStr]
  · intro hv
    cases v <;> simp_all [add_cut_flow, pyIsNumeric, pyTypeIsStr]

/-- C7 (witness): `add_cut_flow` evaluated on an empty dict, a non-string
cut, and a non-numeric count. -/
theorem add_cut_flow_spec_witness :
    add_cut_flow [] (.str "nJpsi>0") (.int 7) = .ok [(keyString 0 "nJpsi>0", 7)] ∧
    add_cut_flow [] (.int 3) (.int 7) = .error .typeError ∧
    add_cut_flow [] (.str "nJpsi>0") (.str "x") = .error .typeError := by
  refine ⟨?_, ?_, ?_⟩
  · have h := (add_cut_flow_spec [] "nJpsi>0" (.int 7) (.int 3)).1 (by decide)
    simpa [dictInsert, dictLen, pyFloat] using h
  · exact (add_cut_flow_spec [] "nJpsi>0" (.int 7) (.int 3)).2.1 (by decide)
  · exact (add_cut_flow_spec [] "nJpsi>0" (.str "x") (.int 3)).2.2 (by decide)

/-- C9 (counterexample): on the one-entry dict whose key is `'#1 s'`
(`len = 1`), `add_cut_flow(d, 's', 3)` computes the very same key `'#1 s'`,
overwrites the pre-existing pair, and leaves the length at `1` — the dict
does not grow and a pre-existing key-value pair is destroyed. -/
theorem add_cut_flow_overwrite_counterexample :
    add_cut_flow [(keyString 1 "s", 1)] (.str "s") (.int 3) =
      .ok [(keyString 1 "s", 3)] ∧
    ([(keyString 1 "s", 3)] : PyDict).length = 1 ∧
    (keyString 1 "s", (1 : Rat)) ∉ ([(keyString 1 "s", 3)] : PyDict) := by
  refine ⟨rfl, rfl, ?_⟩
  intro h
  simp only [List.mem_singleton, Prod.mk.injEq] at h
  exact absurd h.2 (by norm_num)

/-- C9 (amended): on a cut-flow dict in canonical form (keys `'#0 …'` …
`'#(N-1) …'`, the shape `add_cut_flow` itself produces from an empty dict),
every non-raising call appends exactly one entry under a key distinct from
all existing keys, preserves every pre-existing pair, and — at the
reference level — returns the same dict object it was passed, mutated in
place. -/
theorem add_cut_flow_growth_amended (d : PyDict) (s : String) (v : PyVal)
    (hcan : CanonicalCutFlow d) (hv : pyIsNumeric v = true)
    (heap : List PyDict) (r : Nat) (hr : heap[r]? = some d) :
    add_cut_flow d (.str s) v = .ok (d ++ [(keyString d.length s, pyFloat v)]) ∧
    (d ++ [(keyString d.length s, pyFloat v)]).length = d.length + 1 ∧
    (∀ p ∈ d, p ∈ d ++ [(keyString d.length s, pyFloat v)]) ∧
    (∀ i (h : i < d.length), keyString d.length s ≠ (d.get ⟨i, h⟩).1) ∧
    add_cut_flow_ref heap r (.str s) v =
      .ok (heap.set r (d ++ [(keyString d.length s, pyFloat v)]), r) := by
  have hrun : add_cut_flow d (.str s) v = .ok (d ++ [(keyString d.length s, pyFloat v)]) := by
    have h1 := add_cut_flow_numeric d s v hv
    simp only [dictLen] at h1
    rw [h1, dictInsert_canonical_append d hcan s (pyFloat v)]
  refine ⟨hrun, by simp, fun p hp => List.mem_append_left _ hp, ?_, ?_⟩
  · intro i h hkey
    obtain ⟨t, ht⟩ := hcan i h
    rw [ht] at hkey
    have := (keyString_inj hkey).1
    omega
  · simp only [add_cut_flow_ref, hr, hrun]

/-- C9 (witness): the amended theorem applied to a concrete canonical
one-entry dict sitting at reference `0` of a one-dict heap. -/
theorem add_cut_flow_growth_witness :
    add_cut_flow_ref [[(keyString 0 "w", 5)]] 0 (.str "trigger") (.float 2) =
      .ok ([[(keyString 0 "w", 5), (keyString 1 "trigger", 2)]], 0) := by
  have hcan : CanonicalCutFlow [(keyString 0 "w", 5)] := by
    intro i hi
    have hi0 : i = 0 := by simpa using hi
    subst hi0
    exact ⟨"w", rfl⟩
  have h := (add_cut_flow_growth_amended [(keyString 0 "w", 5)] "trigger" (.float 2)
    hcan (by decide) [[(keyString 0 "w", 5)]] 0 (by rfl)).2.2.2.2
  simpa [pyFloat] using h

theorem combo_GF_2018 : ("GF" : String) ++ "_" ++ String.mk (pyIntStr 2018) = "GF_2018" := by
  decide

/-- C4: for every `CAT` and `YEAR` whose combination `f'{CAT}_{YEAR}'` is
not `'GF_2018'`, both `rdf_def_triggers` and `rdf_def_jets` raise
`ValueError` (returning no modified dataframe, branch list, or cut-flow
dict); for `CAT='GF'`, `YEAR=2018` neither raises. -/
theorem triggers_jets_valueerror (CAT : String) (YEAR : Int) (rdf : RDF)
    (branches : List String) (cfd : PyDict) (filt data : Bool)
    (jcf : List Rat → List Rat → List Rat → List Rat →
      List Rat → List Rat → List Rat → List Rat → List Rat)
    (jb jmb : List String)
    (h : CAT ++ "_" ++ String.mk (pyIntStr YEAR) ≠ "GF_2018") :
    rdf_def_triggers rdf CAT YEAR branches cfd filt = .error .valueError ∧
    rdf_def_jets rdf CAT YEAR branches cfd data filt jcf jb jmb = .error .valueError ∧
    (rdf_def_triggers rdf "GF" 2018 branches cfd filt).isOk = true ∧
    (rdf_def_jets rdf "GF" 2018 branches cfd data filt jcf jb jmb).isOk = true := by
  refine ⟨?_, ?_, ?_, ?_⟩
  · rw [rdf_def_triggers, if_neg h]
  · rw [rdf_def_jets, if_neg h]
  · rw [rdf_def_triggers, if_pos combo_GF_2018]
    cases filt <;> simp [add_cut_flow_str_float, Except.isOk, Except.toBool]
  · rw [rdf_def_jets, if_pos combo_GF_2018]
    cases filt <;> cases data <;> simp [add_cut_flow_str_float, Except.isOk, Except.toBool]

/-- C4 (witness): an unknown category raises, and the `GF`/`2018`
combination succeeds, on concrete arguments. -/
theorem triggers_jets_valueerror_witness :
    rdf_def_triggers [] "XX" 2018 [] [] true = .error .valueError ∧
    (rdf_def_jets [] "GF" 2018 [] [] true true (fun _ _ _ _ _ _ _ _ => []) [] []).isOk = true := by
  have h := triggers_jets_valueerror "XX" 2018 [] [] [] true true
    (fun _ _ _ _ _ _ _ _ => []) [] [] (by decide)
  exact ⟨h.1, h.2.2.2⟩

/-- C8 (code bug): a cut-flow entry should be recorded only when a filter is
actually applied, and `filter_rdf`, `rdf_def_triggers`, `rdf_def_jpsi` and
`rdf_def_jets` all behave that way with `filter=False`; but
`rdf_def_vertex` calls `add_cut_flow` unconditionally
(`rdfdefines.py` line 286), so with `filter=False` it still appends an
entry — here the unfiltered yield `1` under key `'#0 PV_npvsGood>0'` on a
one-row frame and an empty dict. -/
theorem vertex_cutflow_filterfalse_bug :
    (∀ (rdf : RDF) (cfd : PyDict) (cut descr : String) (p : Row → Bool),
      filter_rdf rdf cfd cut p descr false = .ok (rdf, cfd)) ∧
    (∀ (rdf : RDF) (branches : List String) (cfd : PyDict),
      (rdf_def_triggers rdf "GF" 2018 branches cfd false).map (fun t => t.2.2) = .ok cfd) ∧
    (∀ (rdf : RDF) (branches : List String) (cfd : PyDict)
      (dR : Rat → Rat → Rat → Rat → Rat) (jb : List String),
      (rdf_def_jpsi rdf branches cfd dR jb false).map (fun t => t.2.2) = .ok cfd) ∧
    (∀ (rdf : RDF) (branches : List String) (cfd : PyDict) (data : Bool)
      (jcf : List Rat → List Rat → List Rat → List Rat →
        List Rat → List Rat → List Rat → List Rat → List Rat) (jb jmb : List String),
      (rdf_def_jets rdf "GF" 2018 branches cfd data false jcf jb jmb).map (fun t => t.2.2) = .ok cfd) ∧
    (rdf_def_vertex [rowPlus] [] [] [] false).map (fun t => t.2.2) =
      Except.ok [(keyString 0 "PV_npvsGood>0", 1)] := by
  refine ⟨fun rdf cfd cut descr p => rfl, ?_, ?_, ?_, ?_⟩
  · intro rdf branches cfd
    rw [rdf_def_triggers, if_pos combo_GF_2018]
    simp [Except.map]
  · intro rdf branches cfd dR jb
    rw [rdf_def_jpsi]
    simp [filter_rdf, Except.map]
  · intro rdf branches cfd data jcf jb jmb
    rw [rdf_def_jets, if_pos combo_GF_2018]
    cases data <;> simp [Except.map]
  · rw [rdf_def_vertex]
    simp only [if_neg Bool.false_ne_true, add_cut_flow_str_float, Except.map]
    simp [rdfSumW, colScalar, rowPlus, dictInsert, dictLen, keyString]

/-- The constructor validation of `FittingTool.__init__`
(`rootpdf.py` lines 36–44), transcribed check by check.  Line 43 of the
source repeats the `isinstance(VARLOW, (int, float))` test (its message
names `VARHIGH`, but it tests `VARLOW`); the Python `<` on line 44 raises
its own `TypeError` when the operands are not order-comparable. -/
def FittingTool.initChecks (YEAR CAT VERS VARNAME VARTITLE VARLOW VARHIGH : PyVal) :
    Except PyErr Unit :=
  if ¬ pyTypeIsInt YEAR then .error .typeError
  else if ¬ pyTypeIsStr CAT then .error .typeError
  else if ¬ pyTypeIsStr VERS then .error .typeError
  else if ¬ pyTypeIsStr VARNAME then .error .typeError
  else if ¬ pyTypeIsStr VARTITLE then .error .typeError
  else if ¬ pyIsNumeric VARLOW then .error .typeError
  else if ¬ pyIsNumeric VARLOW then .error .typeError
  else
    match pyLt VARLOW VARHIGH with
    | .error e => .error e
    | .ok lt => if ¬ lt then .error .valueError else .ok ()

/-- C3 (code bug): with `VARHIGH = Decimal(5)` — not an `int` or `float`,
but order-comparable with numbers — `FittingTool.__init__`'s validation
raises nothing at all: line 43 tests `VARLOW` a second time instead of
`VARHIGH` (contradicting both the docstring and its own error message), and
the `VARLOW < VARHIGH` comparison succeeds.  The claim (and the docstring)
says a `TypeError` is raised. -/
theorem init_varhigh_check_bug :
    FittingTool.initChecks (.int 2018) (.str "GF") (.str "202005") (.str "m")
      (.str "mass") (.float 1) (.decimal 5) = .ok () ∧
    pyIsNumeric (.decimal 5) = false := by
  constructor
  · simp [FittingTool.initChecks, pyTypeIsInt, pyTypeIsStr, pyIsNumeric, pyLt, pyNumContent]
  · rfl

/-- The sample options accepted by `loadRooDataSet`, `loadRooDataHist` and
`fit` (`rootpdf.py` lines 151, 176, 204). -/
def validSamps : List String :=
  ["MC_SIG", "MC_BKG0", "MC_BKG1", "MC_BKG2", "MC_BKG3", "DATA_BKG"]

/-- The state of a `FittingTool` instance that the loading and fitting
methods read or write: the constructor arguments they use and the key sets
of the `self._pdfs` / `self._data` dicts (the PDF and dataset objects
themselves live in RooFit). -/
structure FittingTool where
  YEAR : Int
  CAT : String
  VARNAME : String
  pdfs : List String
  data : List String

/-- `f'{self.YEAR}_{self.CAT}'`, the variable suffix from `__init__`. -/
def FittingTool.varsfx (ft : FittingTool) : String :=
  String.mk (pyIntStr ft.YEAR) ++ "_" ++ ft.CAT

/-- `self._pdfkeys[k]` with `_pdfkeys` as built in `__init__`
(`rootpdf.py` lines 57–59): only the keys `'sig_gaussian'` and
`'bkg_gaussian'` exist; any other subscript raises `KeyError`. -/
def FittingTool.pdfkeysLookup (ft : FittingTool) (k : String) : Except PyErr String :=
  if k = "sig_gaussian" then .ok ("sig_gaussian_" ++ ft.varsfx)
  else if k = "bkg_gaussian" then .ok ("bkg_gaussian_" ++ ft.varsfx)
  else .error .keyError

/-- `FittingTool.loadRooDataSet(rdf, samp)` (`rootpdf.py` lines 134–157):
first the `VARNAME`-column check (raising `KeyError`), then the `samp`
check (raising `ValueError`), then the booking, which stores the result
under `f'RooDataSet_{samp}_{YEAR}_{CAT}'`. -/
def FittingTool.loadRooDataSet (ft : FittingTool) (rdfCols : List String)
    (samp : String) : Except PyErr FittingTool :=
  if ¬ rdfCols.contains ft.VARNAME then .error .keyError
  else if validSamps.contains samp then
    let dsname := "RooDataSet_" ++ samp ++ "_" ++ String.mk (pyIntStr ft.YEAR) ++ "_" ++ ft.CAT
    .ok { ft with data := ft.data ++ [dsname] }
  else .error .valueError

/-- `FittingTool.loadRooDataHist(rdf, samp)` (`rootpdf.py` lines 159–182):
same shape as `loadRooDataSet` with the `RooDataHist` prefix. -/
def FittingTool.loadRooDataHist (ft : FittingTool) (rdfCols : List String)
    (samp : String) : Except PyErr FittingTool :=
  if ¬ rdfCols.contains ft.VARNAME then .error .keyError
  else if validSamps.contains samp then
    let dhname := "RooDataHist_" ++ samp ++ "_" ++ String.mk (pyIntStr ft.YEAR) ++ "_" ++ ft.CAT
    .ok { ft with data := ft.data ++ [dhname] }
  else .error .valueError

/-- The retry loop of `FittingTool.fit` (`rootpdf.py` lines 219–235).
`statusOf k` is the status code the external minimizer
(`pdf.fitTo(...).status()`) reports on the `k`-th call — an oracle for
RooFit.  The result is `(status, calls, randomizations)`: the final value
of the `status` variable, the number of `fitTo` invocations, and the number
of `randomizePars` assignments.  `st0` is the current value of `status`
(initialised to `-1` on line 219); the `ntries += 1` inside the loop body
has no effect on a Python `for` iterator. -/
def fitGo (statusOf : Nat → Int) : Nat → Nat → Int → Int × Nat × Nat
  | _, 0, st0 => (st0, 0, 0)
  | k, rem + 1, _ =>
    let st := statusOf k
    if st = 0 then (st, 1, 0)
    else
      let r := fitGo statusOf (k + 1) rem st
      (r.1, r.2.1 + 1, r.2.2 + 1)

/-- The whole loop: attempts start at trial `1` with `status = -1`, and
`range(1, max_tries+1)` yields `max_tries` iterations. -/
def fitRun (statusOf : Nat → Int) (maxTries : Nat) : Int × Nat × Nat :=
  fitGo statusOf 1 maxTries (-1)

/-- `FittingTool.fit(samp, pdf_type, binned=True, strategy=2, max_tries=10)`
(`rootpdf.py` lines 184–252).  The `strategy` option is forwarded to RooFit
and does not affect the control flow; `range(1, max_tries+1)` is empty when
`max_tries < 1`, hence `Int.toNat`.  The second and third components count
minimizer calls and parameter randomizations (zero when an exception is
raised, since the raise precedes the loop). -/
def FittingTool.fit (ft : FittingTool) (samp pdfType : String) (binned : Bool)
    (maxTries : Int) (statusOf : Nat → Int) :
    Except PyErr Int × Nat × Nat :=
  if ¬ validSamps.contains samp then (.error .valueError, 0, 0)
  else
    let datakeyPfx := if binned then "RooDataHist" else "RooDataSet"
    let dataType := if decide (("BKG".data) <:+: samp.data) then "bkg" else "sig"
    match ft.pdfkeysLookup (dataType ++ "_" ++ pdfType) with
    | .error e => (.error e, 0, 0)
    | .ok pdfkey =>
      let datakey := datakeyPfx ++ "_" ++ samp ++ "_" ++ String.mk (pyIntStr ft.YEAR) ++ "_" ++ ft.CAT
      if ¬ ft.pdfs.contains pdfkey then (.error .keyError, 0, 0)
      else if ¬ ft.data.contains datakey then (.error .keyError, 0, 0)
      else
        let res := fitRun statusOf maxTries.toNat
        (.ok res.1, res.2)

/-- Full characterisation of the retry loop: at most `rem` calls; with no
budget the initial status is returned untouched; with budget, at least one
call happens, the returned status is that of the last call performed, every
earlier call returned nonzero (so the loop stops at the first zero status),
the loop ends either on a zero status or by exhausting the budget, and the
parameters are randomized after exactly the nonzero-status calls. -/
theorem fitGo_spec (s : Nat → Int) : ∀ (rem k : Nat) (st0 : Int),
    (fitGo s k rem st0).2.1 ≤ rem ∧
    (rem = 0 → fitGo s k rem st0 = (st0, 0, 0)) ∧
    (1 ≤ rem →
      1 ≤ (fitGo s k rem st0).2.1 ∧
      (fitGo s k rem st0).1 = s (k + (fitGo s k rem st0).2.1 - 1) ∧
      (∀ i, i < (fitGo s k rem st0).2.1 - 1 → s (k + i) ≠ 0) ∧
      ((fitGo s k rem st0).1 = 0 ∨ (fitGo s k rem st0).2.1 = rem) ∧
      (fitGo s k rem st0).2.2 =
        (if (fitGo s k rem st0).1 = 0 then (fitGo s k rem st0).2.1 - 1
         else (fitGo s k rem st0).2.1)) := by
  intro rem
  induction rem with
  | zero =>
    intro k st0
    exact ⟨by simp [fitGo], fun _ => rfl, fun h => absurd h (by omega)⟩
  | succ rem ih =>
    intro k st0
    by_cases hz : s k = 0
    · have hres : fitGo s k (rem + 1) st0 = (s k, 1, 0) := by
        simp [fitGo, hz]
      rw [hres]
      refine ⟨show 1 ≤ rem + 1 by omega, fun h => absurd h (by omega), fun _ => ?_⟩
      refine ⟨show (1:Nat) ≤ 1 by omega, ?_, ?_, Or.inl hz, ?_⟩
      · show s k = s (k + 1 - 1)
        have harg : k + 1 - 1 = k := by omega
        rw [harg]
      · intro i hi
        exact absurd (show i < 0 from hi) (by omega)
      · show (0:Nat) = if s k = 0 then 1 - 1 else 1
        simp [hz]
    · have hres : fitGo s k (rem + 1) st0 =
          ((fitGo s (k + 1) rem (s k)).1,
           (fitGo s (k + 1) rem (s k)).2.1 + 1,
           (fitGo s (k + 1) rem (s k)).2.2 + 1) := by
        simp [fitGo, hz]
      obtain ⟨ihc, ihz, ihpos⟩ := ih (k + 1) (s k)
      rw [hres]
      by_cases hrem : rem = 0
      · have hsub : fitGo s (k + 1) rem (s k) = (s k, 0, 0) := ihz hrem
        rw [hsub]
        refine ⟨show 0 + 1 ≤ rem + 1 by omega, fun h => absurd h (by omega), fun _ => ?_⟩
        refine ⟨show (1:Nat) ≤ 0 + 1 by omega, ?_, ?_, Or.inr (show 0 + 1 = rem + 1 by omega), ?_⟩
        · show s k = s (k + (0 + 1) - 1)
          have harg : k + (0 + 1) - 1 = k := by omega
          rw [harg]
        · intro i hi
          exact absurd (show i < 0 + 1 - 1 from hi) (by omega)
        · show (0:Nat) + 1 = if s k = 0 then (0 + 1) - 1 else 0 + 1
          simp [hz]
      · obtain ⟨hc1, hlast, hnz, hstop, hrand⟩ := ihpos (by omega)
        refine ⟨show (fitGo s (k + 1) rem (s k)).2.1 + 1 ≤ rem + 1 by omega,
          fun h => absurd h (by omega), fun _ => ?_⟩
        refine ⟨show 1 ≤ (fitGo s (k + 1) rem (s k)).2.1 + 1 by omega, ?_, ?_, ?_, ?_⟩
        · show (fitGo s (k + 1) rem (s k)).1 = s (k + ((fitGo s (k + 1) rem (s k)).2.1 + 1) - 1)
          rw [hlast]
          congr 1
          omega
        · show ∀ i, i < ((fitGo s (k + 1) rem (s k)).2.1 + 1) - 1 → s (k + i) ≠ 0
          intro i hi
          cases i with
          | zero => simpa using hz
          | succ j =>
            have hj : j < (fitGo s (k + 1) rem (s k)).2.1 - 1 := by omega
            have := hnz j hj
            have harg : k + 1 + j = k + (j + 1) := by omega
            rw [harg] at this
            exact this
        · show (fitGo s (k + 1) rem (s k)).1 = 0 ∨ (fitGo s (k + 1) rem (s k)).2.1 + 1 = rem + 1
          rcases hstop with h0 | hfull
          · exact Or.inl h0
          · exact Or.inr (by omega)
        · show (fitGo s (k + 1) rem (s k)).2.2 + 1 =
            if (fitGo s (k + 1) rem (s k)).1 = 0 then ((fitGo s (k + 1) rem (s k)).2.1 + 1) - 1
            else (fitGo s (k + 1) rem (s k)).2.1 + 1
          rw [hrand]
          by_cases h0 : (fitGo s (k + 1) rem (s k)).1 = 0 <;> simp [h0] <;> omega

/-- C2 (counterexample): with `max_tries = 0` the loop body never runs and
`fit` returns the initial `status = -1` without invoking the minimizer —
`-1` is not one of the documented codes `0..5`.  With one try and a
minimizer status of `6`, `6` is returned and is likewise outside the
documented enumeration. -/
theorem fit_status_enum_counterexample :
    FittingTool.fit ⟨2018, "GF", "m", ["sig_gaussian_2018_GF"],
        ["RooDataHist_MC_SIG_2018_GF"]⟩ "MC_SIG" "gaussian" true 0 (fun _ => 0) =
      (.ok (-1), 0, 0) ∧
    (∀ c : Int, c = 0 ∨ c = 1 ∨ c = 2 ∨ c = 3 ∨ c = 4 ∨ c = 5 → (-1 : Int) ≠ c) ∧
    fitRun (fun _ => 6) 1 = (6, 1, 1) ∧
    (∀ c : Int, c = 0 ∨ c = 1 ∨ c = 2 ∨ c = 3 ∨ c = 4 ∨ c = 5 → (6 : Int) ≠ c) := by
  refine ⟨rfl, by omega, rfl, by omega⟩

/-- C2 (amended): with a valid `samp`, an existing PDF and an existing
dataset, `FittingTool.fit` surfaces exactly the retry loop `fitRun`: at
most `max_tries` minimizer invocations; with `max_tries < 1` no invocation
and a returned status of `-1`; otherwise at least one invocation, the
returned value being the minimizer's status on the last attempt performed,
every earlier attempt having returned nonzero (the loop stops at the first
zero status, or exhausts the budget), and the PDF parameters randomized
after exactly the nonzero-status attempts.  The returned value is the
minimizer's own code, not necessarily in the documented `0..5`
enumeration. -/
theorem fit_retry_loop_amended (ft : FittingTool) (samp pdfType pdfkey : String)
    (binned : Bool) (maxTries : Int) (s : Nat → Int)
    (hsamp : validSamps.contains samp = true)
    (hlk : ft.pdfkeysLookup
      ((if decide ("BKG".data <:+: samp.data) then "bkg" else "sig") ++ "_" ++ pdfType) = .ok pdfkey)
    (hpdf : ft.pdfs.contains pdfkey = true)
    (hdata : ft.data.contains ((if binned then "RooDataHist" else "RooDataSet") ++ "_" ++ samp
      ++ "_" ++ String.mk (pyIntStr ft.YEAR) ++ "_" ++ ft.CAT) = true) :
    FittingTool.fit ft samp pdfType binned maxTries s =
      (.ok (fitRun s maxTries.toNat).1, (fitRun s maxTries.toNat).2) ∧
    (fitRun s maxTries.toNat).2.1 ≤ maxTries.toNat ∧
    (maxTries.toNat = 0 → fitRun s maxTries.toNat = (-1, 0, 0)) ∧
    (1 ≤ maxTries.toNat →
      1 ≤ (fitRun s maxTries.toNat).2.1 ∧
      (fitRun s maxTries.toNat).1 = s (fitRun s maxTries.toNat).2.1 ∧
      (∀ i, 1 ≤ i → i < (fitRun s maxTries.toNat).2.1 → s i ≠ 0) ∧
      ((fitRun s maxTries.toNat).1 = 0 ∨ (fitRun s maxTries.toNat).2.1 = maxTries.toNat) ∧
      (fitRun s maxTries.toNat).2.2 =
        (if (fitRun s maxTries.toNat).1 = 0 then (fitRun s maxTries.toNat).2.1 - 1
         else (fitRun s maxTries.toNat).2.1)) := by
  obtain ⟨hc, hz, hpos⟩ := fitGo_spec s maxTries.toNat 1 (-1)
  refine ⟨?_, hc, hz, ?_⟩
  · simp only [FittingTool.fit, hsamp, hlk, hpdf, hdata]
    simp
  · intro hm
    obtain ⟨h1, h2, h3, h4, h5⟩ := hpos hm
    refine ⟨h1, ?_, ?_, h4, h5⟩
    · simp only [fitRun] at h1 ⊢
      rw [h2]
      congr 1
      omega
    · intro i hi1 hi2
      have := h3 (i - 1) (by simp only [fitRun] at hi2 ⊢; omega)
      have heq : 1 + (i - 1) = i := by omega
      rw [heq] at this
      exact this

/-- C2 (witness): the amended theorem at a concrete instance with
`max_tries = 3` and minimizer statuses `4, 0, …`: two calls, one
randomization, final status `0`. -/
theorem fit_retry_loop_witness :
    FittingTool.fit ⟨2018, "GF", "m", ["sig_gaussian_2018_GF"],
        ["RooDataHist_MC_SIG_2018_GF"]⟩ "MC_SIG" "gaussian" true 3
        (fun k => if k = 1 then 4 else 0) =
      (.ok 0, 2, 1) := by
  have h := (fit_retry_loop_amended ⟨2018, "GF", "m", ["sig_gaussian_2018_GF"],
      ["RooDataHist_MC_SIG_2018_GF"]⟩ "MC_SIG" "gaussian" "sig_gaussian_2018_GF" true 3
      (fun k => if k = 1 then 4 else 0) (by decide) (by rfl) (by decide) (by decide)).1
  rw [h]
  rfl

/-- C5 (counterexample): when `VARNAME` is not among the RDF's columns,
`loadRooDataSet` raises `KeyError` — not `ValueError` — even for an invalid
`samp`, because the column check precedes the sample check
(`rootpdf.py` lines 149–153). -/
theorem samp_validation_counterexample :
    FittingTool.loadRooDataSet ⟨2018, "GF", "m", [], []⟩ [] "XYZ" = .error .keyError ∧
    FittingTool.loadRooDataHist ⟨2018, "GF", "m", [], []⟩ [] "XYZ" = .error .keyError ∧
    PyErr.keyError ≠ PyErr.valueError := by
  exact ⟨rfl, rfl, by decide⟩

/-- C5 (amended): for every `samp` outside the six valid options,
`loadRooDataSet` and `loadRooDataHist` raise `ValueError` provided
`VARNAME` is among the RDF's columns (otherwise a `KeyError` fires first),
and `fit` raises `ValueError` unconditionally; in each case the raise
precedes any mutation, so no dataset is stored and no fit is attempted
(zero minimizer calls). -/
theorem samp_validation_amended (ft : FittingTool) (rdfCols : List String)
    (samp pdfType : String) (binned : Bool) (maxTries : Int) (s : Nat → Int)
    (hsamp : validSamps.contains samp = false)
    (hcol : rdfCols.contains ft.VARNAME = true) :
    ft.loadRooDataSet rdfCols samp = .error .valueError ∧
    ft.loadRooDataHist rdfCols samp = .error .valueError ∧
    ft.fit samp pdfType binned maxTries s = (.error .valueError, 0, 0) := by
  refine ⟨?_, ?_, ?_⟩
  · simp only [FittingTool.loadRooDataSet, hcol, hsamp]
    simp
  · simp only [FittingTool.loadRooDataHist, hcol, hsamp]
    simp
  · simp only [FittingTool.fit, hsamp]
    simp

/-- C5 (witness): the amended theorem at a concrete instance whose
`VARNAME` is a column of the RDF and whose sample name is unknown. -/
theorem samp_validation_witness :
    FittingTool.loadRooDataSet ⟨2018, "GF", "m", [], []⟩ ["m"] "XYZ" = .error .valueError ∧
    FittingTool.fit ⟨2018, "GF", "m", [], []⟩ "XYZ" "gaussian" true 10 (fun _ => 0) =
      (.error .valueError, 0, 0) := by
  have h := samp_validation_amended ⟨2018, "GF", "m", [], []⟩ ["m"] "XYZ" "gaussian"
    true 10 (fun _ => 0) (by decide) (by decide)
  exact ⟨h.1, h.2.2⟩

/-- A top-level Python expression statement touching the ROOT implicit-MT
API: a call of `EnableImplicitMT` / `DisableImplicitMT`, or a bare
attribute reference without call parentheses (which evaluates the bound
method object and discards it). -/
inductive PyTopStmt where
  | callEnableImplicitMT : PyTopStmt
  | callDisableImplicitMT : PyTopStmt
  | attrEnableImplicitMT : PyTopStmt
deriving DecidableEq, Repr

/-- Effect of such a statement on ROOT's implicit-MT flag: only the calls
change it. -/
def stepMT : PyTopStmt → Bool → Bool
  | .callEnableImplicitMT, _ => true
  | .callDisableImplicitMT, _ => false
  | .attrEnableImplicitMT, mt => mt

/-- Line 11 of `rdfdefines.py` reads `ROOT.EnableImplicitMT` — an attribute
reference with no call parentheses (and the named function would *enable*
implicit multithreading if it were called). -/
def rdfdefinesLine11 : PyTopStmt := .attrEnableImplicitMT

/-- The effect of importing the `rdfdefines` module on the implicit-MT
flag: the only MT-related top-level statement is line 11. -/
def rdfdefinesModuleLoadMT (mt : Bool) : Bool := stepMT rdfdefinesLine11 mt

/-- C6 (counterexample): loading the module does not disable implicit
multithreading — with the flag previously enabled, it stays enabled. -/
theorem enableimplicitmt_noop_counterexample :
    ¬ (rdfdefinesModuleLoadMT true = false) := by
  decide

/-- C6 (amended): loading `rdfdefines` leaves the implicit-multithreading
flag exactly as it was — line 11 references `ROOT.EnableImplicitMT` without
calling it, so nothing is enabled or disabled; execution is
single-threaded only because ROOT's default leaves implicit MT off. -/
theorem enableimplicitmt_noop : ∀ mt : Bool, rdfdefinesModuleLoadMT mt = mt :=
  fun _ => rfl

mutual
/-- A JSON value of the shape `make_json` receives per the claim: strings
and dictionaries whose keys and values are such values.  Strings are Lean
strings (sequences of Unicode scalar values; the model does not represent
Python's lone surrogates). -/
inductive JVal where
  | jstr : String → JVal
  | jobj : JObj → JVal
/-- An insertion-ordered string-keyed JSON object (Python dict). -/
inductive JObj where
  | onil : JObj
  | ocons : String → JVal → JObj → JObj
end

/-- The double-quote character. -/
def qCh : Char := Char.ofNat 34

/-- The backslash character. -/
def bsCh : Char := Char.ofNat 92

/-- The left-brace character. -/
def lbCh : Char := Char.ofNat 123

/-- The right-brace character. -/
def rbCh : Char := Char.ofNat 125

/-- Lowercase hex digit, as in CPython's `'\\u%04x'` escapes. -/
def hexCh (n : Nat) : Char :=
  if n < 10 then Char.ofNat (48 + n) else Char.ofNat (87 + n)

/-- The four hex digits of a `\\uXXXX` escape payload (`v < 0x10000`). -/
def esc4 (v : Nat) : List Char :=
  [hexCh (v / 4096 % 16), hexCh (v / 256 % 16), hexCh (v / 16 % 16), hexCh (v % 16)]

/-- CPython `json.encoder.py_encode_basestring_ascii`, per character: `"`
and `\\` get two-character escapes, the five control shorthands apply, the
remaining control characters and all non-ASCII characters become `\\uXXXX`
(astral characters as a surrogate pair), printable ASCII is literal. -/
def escChar (c : Char) : List Char :=
  if c = qCh then [bsCh, qCh]
  else if c = bsCh then [bsCh, bsCh]
  else if c = '\n' then [bsCh, 'n']
  else if c = '\r' then [bsCh, 'r']
  else if c = '\t' then [bsCh, 't']
  else if c = Char.ofNat 8 then [bsCh, 'b']
  else if c = Char.ofNat 12 then [bsCh, 'f']
  else if c.toNat < 32 then bsCh :: 'u' :: esc4 c.toNat
  else if c.toNat < 127 then [c]
  else if c.toNat < 65536 then bsCh :: 'u' :: esc4 c.toNat
  else
    (bsCh :: 'u' :: esc4 (55296 + (c.toNat - 65536) / 1024)) ++
      (bsCh :: 'u' :: esc4 (56320 + (c.toNat - 65536) % 1024))

/-- Escape a character sequence. -/
def escList (cs : List Char) : List Char := cs.foldr (fun c acc => escChar c ++ acc) []

/-- A serialized JSON string: quote, escaped content, quote. -/
def escString (s : String) : List Char := qCh :: (escList s.data ++ [qCh])

/-- `indent=4` whitespace at nesting level `lvl`. -/
def indentSp (lvl : Nat) : List Char := List.replicate (4 * lvl) ' '

mutual
/-- `json.dumps(v, indent=4)` at nesting level `lvl`, as a character list. -/
def serVal : Nat → JVal → List Char
  | _, .jstr s => escString s
  | lvl, .jobj o => serObj lvl o
termination_by lvl v => sizeOf v
/-- Serialize an object: `{}` when empty, otherwise members on their own
indented lines (the `indent=4` layout with `(',', ': ')` separators). -/
def serObj : Nat → JObj → List Char
  | _, .onil => [lbCh, rbCh]
  | lvl, .ocons k v o =>
    lbCh :: '\n' :: (serMembers (lvl + 1) k v o ++ '\n' :: (indentSp lvl ++ [rbCh]))
termination_by lvl o => sizeOf o
/-- Serialize a nonempty member list at member indentation `lvl`. -/
def serMembers : Nat → String → JVal → JObj → List Char
  | lvl, k, v, .onil => indentSp lvl ++ (escString k ++ ':' :: ' ' :: serVal lvl v)
  | lvl, k, v, .ocons k2 v2 o2 =>
    indentSp lvl ++ (escString k ++ ':' :: ' ' ::
      (serVal lvl v ++ ',' :: '\n' :: serMembers lvl k2 v2 o2))
termination_by lvl k v o => sizeOf v + sizeOf o
end

/-- `make_json(stuff)` (`branchlist.py` lines 18–20):
`json.dumps(stuff, indent=4)` on a string dictionary. -/
def make_json (d : JObj) : String := String.mk (serObj 0 d)

/-- JSON whitespace (`json.decoder.WHITESPACE`): space, tab, newline, CR. -/
def isWsCh (c : Char) : Bool := c = ' ' || c = '\t' || c = '\n' || c = '\r'

/-- Skip leading JSON whitespace. -/
def skipWs : List Char → List Char
  | [] => []
  | c :: cs => if isWsCh c then skipWs cs else c :: cs

/-- Value of one hex digit (`0-9a-fA-F`). -/
def hexVal (c : Char) : Option Nat :=
  if 48 ≤ c.toNat ∧ c.toNat ≤ 57 then some (c.toNat - 48)
  else if 97 ≤ c.toNat ∧ c.toNat ≤ 102 then some (c.toNat - 87)
  else if 65 ≤ c.toNat ∧ c.toNat ≤ 70 then some (c.toNat - 55)
  else Option.none

/-- Parse the four hex digits of a `\\uXXXX` escape. -/
def parseHex4 : List Char → Option (Nat × List Char)
  | a :: b :: c :: d :: r =>
    match hexVal a, hexVal b, hexVal c, hexVal d with
    | some x, some y, some z, some w => some (((x * 16 + y) * 16 + z) * 16 + w, r)
    | _, _, _, _ => Option.none
  | _ => Option.none

/-- The single-character JSON escapes (`json.decoder.BACKSLASH`). -/
def escUnmap (c : Char) : Option Char :=
  if c = qCh then some qCh
  else if c = bsCh then some bsCh
  else if c = '/' then some '/'
  else if c = 'b' then some (Char.ofNat 8)
  else if c = 'f' then some (Char.ofNat 12)
  else if c = 'n' then some '\n'
  else if c = 'r' then some '\r'
  else if c = 't' then some '\t'
  else Option.none

/-- The string scanner of `json.loads` (`json.decoder.py_scanstring`),
after the opening quote, with explicit fuel: literal characters up to the
closing quote, backslash escapes, `\\uXXXX` escapes with surrogate-pair
combination.  Raw control characters are rejected (`strict=True`), and a
lone surrogate escape is rejected here because the model's strings cannot
hold one (CPython would keep it; the serializer never emits one from valid
Unicode input). -/
def parseStrAux : Nat → List Char → Option (List Char × List Char)
  | 0, _ => Option.none
  | _ + 1, [] => Option.none
  | fuel + 1, c :: cs =>
    if c = qCh then some ([], cs)
    else if c = bsCh then
      match cs with
      | [] => Option.none
      | e :: cs2 =>
        if e = 'u' then
          match parseHex4 cs2 with
          | Option.none => Option.none
          | some (v, cs3) =>
            if v < 55296 ∨ 57344 ≤ v then
              (parseStrAux fuel cs3).map (fun p => (Char.ofNat v :: p.1, p.2))
            else if v < 56320 then
              match cs3 with
              | b1 :: u1 :: cs4 =>
                if b1 = bsCh ∧ u1 = 'u' then
                  match parseHex4 cs4 with
                  | some (w, cs5) =>
                    if 56320 ≤ w ∧ w < 57344 then
                      (parseStrAux fuel cs5).map
                        (fun p => (Char.ofNat (65536 + (v - 55296) * 1024 + (w - 56320)) :: p.1, p.2))
                    else Option.none
                  | Option.none => Option.none
                else Option.none
              | _ => Option.none
            else Option.none
        else
          match escUnmap e with
          | some c2 => (parseStrAux fuel cs2).map (fun p => (c2 :: p.1, p.2))
          | Option.none => Option.none
    else if c.toNat < 32 then Option.none
    else (parseStrAux fuel cs).map (fun p => (c :: p.1, p.2))

/-- Scan a JSON string, the fuel being bounded by the input length. -/
def parseJStr (cs : List Char) : Option (List Char × List Char) :=
  parseStrAux (cs.length + 1) cs

mutual
/-- The value scanner of `json.loads`, restricted to the string/object
sublanguage `make_json` emits (numbers, arrays, booleans and `null` never
arise from a string dictionary), with explicit fuel for the
object-recursion depth. -/
def parseVal : Nat → List Char → Option (JVal × List Char)
  | 0, _ => Option.none
  | fuel + 1, cs =>
    match skipWs cs with
    | [] => Option.none
    | c :: cs1 =>
      if c = qCh then (parseJStr cs1).map (fun p => (JVal.jstr (String.mk p.1), p.2))
      else if c = lbCh then
        match skipWs cs1 with
        | [] => Option.none
        | c2 :: cs2 =>
          if c2 = rbCh then some (JVal.jobj .onil, cs2)
          else (parseMembers fuel cs1).map (fun p => (JVal.jobj p.1, p.2))
      else Option.none
/-- The object-member scanner of `json.loads` (`JSONObject`), after the
opening brace or a comma: key string, colon, value, then a comma to
continue or a closing brace to stop. -/
def parseMembers : Nat → List Char → Option (JObj × List Char)
  | 0, _ => Option.none
  | fuel + 1, cs =>
    match skipWs cs with
    | [] => Option.none
    | c :: cs1 =>
      if c = qCh then
        match parseJStr cs1 with
        | Option.none => Option.none
        | some (kchars, cs2) =>
          match skipWs cs2 with
          | [] => Option.none
          | c3 :: cs3 =>
            if c3 = ':' then
              match parseVal fuel cs3 with
              | Option.none => Option.none
              | some (v, cs4) =>
                match skipWs cs4 with
                | [] => Option.none
                | c5 :: cs5 =>
                  if c5 = ',' then
                    (parseMembers fuel cs5).map (fun p => (JObj.ocons (String.mk kchars) v p.1, p.2))
                  else if c5 = rbCh then some (JObj.ocons (String.mk kchars) v .onil, cs5)
                  else Option.none
            else Option.none
      else Option.none
end

/-- `json.loads(s)` on the sublanguage: scan one value and require only
whitespace after it. -/
def json_loads (str : String) : Option JVal :=
  match parseVal (str.data.length + 1) str.data with
  | some (v, rest) => if (skipWs rest).isEmpty then some v else Option.none
  | Option.none => Option.none

mutual
/-- Fuel needed by `parseVal` for a value. -/
def jcost : JVal → Nat
  | .jstr _ => 1
  | .jobj o => 1 + ocost o
/-- Fuel needed by `parseMembers` for an object's members. -/
def ocost : JObj → Nat
  | .onil => 0
  | .ocons _ v o => 1 + max (jcost v) (ocost o)
end

theorem hexVal_hexCh {n : Nat} (h : n < 16) : hexVal (hexCh n) = some n := by
  interval_cases n <;> decide

theorem parseHex4_esc4 (v : Nat) (X : List Char) (hv : v < 65536) :
    parseHex4 (esc4 v ++ X) = some (v, X) := by
  simp only [esc4, List.cons_append, List.nil_append, parseHex4]
  rw [hexVal_hexCh (by omega), hexVal_hexCh (by omega), hexVal_hexCh (by omega),
    hexVal_hexCh (by omega)]
  simp only [Option.some.injEq, Prod.mk.injEq]
  refine ⟨by omega, trivial⟩

theorem parseStrAux_lit (f : Nat) (c : Char) (X : List Char)
    (h1 : c ≠ qCh) (h2 : c ≠ bsCh) (hge : 32 ≤ c.toNat) :
    parseStrAux (f + 1) (c :: X) = (parseStrAux f X).map (fun p => (c :: p.1, p.2)) := by
  simp only [parseStrAux]
  rw [if_neg h1, if_neg h2, if_neg (by omega)]

theorem parseStrAux_u (f : Nat) (v : Nat) (X : List Char)
    (hrange : v < 55296 ∨ 57344 ≤ v) (hv : v < 65536) :
    parseStrAux (f + 1) (bsCh :: 'u' :: (esc4 v ++ X)) =
      (parseStrAux f X).map (fun p => (Char.ofNat v :: p.1, p.2)) := by
  simp only [parseStrAux]
  rw [if_neg (show ¬ (bsCh = qCh) by decide)]
  simp only [parseHex4_esc4 v X hv, if_pos hrange]
  simp

theorem parseStrAux_u2 (f : Nat) (v : Nat) (X : List Char)
    (hlo : 65536 ≤ v) (hhi : v < 1114112) :
    parseStrAux (f + 1) (bsCh :: 'u' :: (esc4 (55296 + (v - 65536) / 1024) ++
        (bsCh :: 'u' :: (esc4 (56320 + (v - 65536) % 1024) ++ X)))) =
      (parseStrAux f X).map (fun p => (Char.ofNat v :: p.1, p.2)) := by
  obtain ⟨hi, hhi1, hhi2, hhiv⟩ : ∃ hi, 55296 ≤ hi ∧ hi < 56320 ∧ hi = 55296 + (v - 65536) / 1024 :=
    ⟨55296 + (v - 65536) / 1024, by omega, by omega, rfl⟩
  obtain ⟨lo, hlo1, hlo2, hlov⟩ : ∃ lo, 56320 ≤ lo ∧ lo < 57344 ∧ lo = 56320 + (v - 65536) % 1024 :=
    ⟨56320 + (v - 65536) % 1024, by omega, by omega, rfl⟩
  rw [← hhiv, ← hlov]
  simp only [parseStrAux]
  rw [if_neg (show ¬ (bsCh = qCh) by decide)]
  simp only [parseHex4_esc4 hi _ (by omega)]
  rw [if_neg (show ¬ (hi < 55296 ∨ 57344 ≤ hi) by omega)]
  rw [if_pos (show hi < 56320 by omega)]
  simp only [parseHex4_esc4 lo _ (by omega)]
  rw [if_pos (show 56320 ≤ lo ∧ lo < 57344 by omega)]
  have harg : 65536 + (hi - 55296) * 1024 + (lo - 56320) = v := by omega
  rw [harg]
  simp

theorem parseStrAux_escq (f : Nat) (X : List Char) :
    parseStrAux (f + 1) (bsCh :: qCh :: X) =
      (parseStrAux f X).map (fun p => (qCh :: p.1, p.2)) := rfl

theorem parseStrAux_escbs (f : Nat) (X : List Char) :
    parseStrAux (f + 1) (bsCh :: bsCh :: X) =
      (parseStrAux f X).map (fun p => (bsCh :: p.1, p.2)) := rfl

theorem parseStrAux_escn (f : Nat) (X : List Char) :
    parseStrAux (f + 1) (bsCh :: 'n' :: X) =
      (parseStrAux f X).map (fun p => ('\n' :: p.1, p.2)) := rfl

theorem parseStrAux_escr (f : Nat) (X : List Char) :
    parseStrAux (f + 1) (bsCh :: 'r' :: X) =
      (parseStrAux f X).map (fun p => ('\r' :: p.1, p.2)) := rfl

theorem parseStrAux_esct (f : Nat) (X : List Char) :
    parseStrAux (f + 1) (bsCh :: 't' :: X) =
      (parseStrAux f X).map (fun p => ('\t' :: p.1, p.2)) := rfl

theorem parseStrAux_escb (f : Nat) (X : List Char) :
    parseStrAux (f + 1) (bsCh :: 'b' :: X) =
      (parseStrAux f X).map (fun p => (Char.ofNat 8 :: p.1, p.2)) := rfl

theorem parseStrAux_escf (f : Nat) (X : List Char) :
    parseStrAux (f + 1) (bsCh :: 'f' :: X) =
      (parseStrAux f X).map (fun p => (Char.ofNat 12 :: p.1, p.2)) := rfl

theorem parseStrAux_close (f : Nat) (X : List Char) :
    parseStrAux (f + 1) (qCh :: X) = some ([], X) := rfl

theorem escList_cons (c : Char) (cs : List Char) :
    escList (c :: cs) = escChar c ++ escList cs := rfl

/-- Scanning an escaped string up to its closing quote recovers the
original characters and leaves the tail untouched. -/
theorem parseStrAux_esc (cs : List Char) : ∀ (rest : List Char) (fuel : Nat),
    cs.length < fuel →
    parseStrAux fuel (escList cs ++ qCh :: rest) = some (cs, rest) := by
  induction cs with
  | nil =>
    intro rest fuel h
    cases fuel with
    | zero => omega
    | succ f => exact parseStrAux_close f rest
  | cons c cs ih =>
    intro rest fuel h
    cases fuel with
    | zero => omega
    | succ f =>
    have hrec := ih rest f (by simp at h; omega)
    rw [escList_cons, List.append_assoc]
    by_cases h1 : c = qCh
    · subst h1
      rw [show escChar qCh = [bsCh, qCh] from rfl,
        show ([bsCh, qCh] : List Char) ++ (escList cs ++ qCh :: rest) =
          bsCh :: qCh :: (escList cs ++ qCh :: rest) from rfl,
        parseStrAux_escq, hrec]
      rfl
    by_cases h2 : c = bsCh
    · subst h2
      rw [show escChar bsCh = [bsCh, bsCh] from rfl,
        show ([bsCh, bsCh] : List Char) ++ (escList cs ++ qCh :: rest) =
          bsCh :: bsCh :: (escList cs ++ qCh :: rest) from rfl,
        parseStrAux_escbs, hrec]
      rfl
    by_cases h3 : c = '\n'
    · subst h3
      rw [show escChar '\n' = [bsCh, 'n'] from rfl,
        show ([bsCh, 'n'] : List Char) ++ (escList cs ++ qCh :: rest) =
          bsCh :: 'n' :: (escList cs ++ qCh :: rest) from rfl,
        parseStrAux_escn, hrec]
      rfl
    by_cases h4 : c = '\r'
    · subst h4
      rw [show escChar '\r' = [bsCh, 'r'] from rfl,
        show ([bsCh, 'r'] : List Char) ++ (escList cs ++ qCh :: rest) =
          bsCh :: 'r' :: (escList cs ++ qCh :: rest) from rfl,
        parseStrAux_escr, hrec]
      rfl
    by_cases h5 : c = '\t'
    · subst h5
      rw [show escChar '\t' = [bsCh, 't'] from rfl,
        show ([bsCh, 't'] : List Char) ++ (escList cs ++ qCh :: rest) =
          bsCh :: 't' :: (escList cs ++ qCh :: rest) from rfl,
        parseStrAux_esct, hrec]
      rfl
    by_cases h6 : c = Char.ofNat 8
    · subst h6
      rw [show escChar (Char.ofNat 8) = [bsCh, 'b'] from rfl,
        show ([bsCh, 'b'] : List Char) ++ (escList cs ++ qCh :: rest) =
          bsCh :: 'b' :: (escList cs ++ qCh :: rest) from rfl,
        parseStrAux_escb, hrec]
      rfl
    by_cases h7 : c = Char.ofNat 12
    · subst h7
      rw [show escChar (Char.ofNat 12) = [bsCh, 'f'] from rfl,
        show ([bsCh, 'f'] : List Char) ++ (escList cs ++ qCh :: rest) =
          bsCh :: 'f' :: (escList cs ++ qCh :: rest) from rfl,
        parseStrAux_escf, hrec]
      rfl
    by_cases h8 : c.toNat < 32
    · have hesc : escChar c = bsCh :: 'u' :: esc4 c.toNat := by
        unfold escChar
        rw [if_neg h1, if_neg h2, if_neg h3, if_neg h4, if_neg h5, if_neg h6, if_neg h7,
          if_pos h8]
      rw [hesc,
        show (bsCh :: 'u' :: esc4 c.toNat) ++ (escList cs ++ qCh :: rest) =
          bsCh :: 'u' :: (esc4 c.toNat ++ (escList cs ++ qCh :: rest)) by simp,
        parseStrAux_u f c.toNat _ (Or.inl (by omega)) (by omega), hrec]
      simp [Char.ofNat_toNat]
    by_cases h9 : c.toNat < 127
    · have hesc : escChar c = [c] := by
        unfold escChar
        rw [if_neg h1, if_neg h2, if_neg h3, if_neg h4, if_neg h5, if_neg h6, if_neg h7,
          if_neg h8, if_pos h9]
      rw [hesc, List.singleton_append, parseStrAux_lit f c _ h1 h2 (by omega), hrec]
      rfl
    by_cases h10 : c.toNat < 65536
    · have hesc : escChar c = bsCh :: 'u' :: esc4 c.toNat := by
        unfold escChar
        rw [if_neg h1, if_neg h2, if_neg h3, if_neg h4, if_neg h5, if_neg h6, if_neg h7,
          if_neg h8, if_neg h9, if_pos h10]
      have hrange : c.toNat < 55296 ∨ 57344 ≤ c.toNat := by
        rcases c.valid with hv | ⟨hv1, _⟩
        · exact Or.inl hv
        · exact Or.inr hv1
      rw [hesc,
        show (bsCh :: 'u' :: esc4 c.toNat) ++ (escList cs ++ qCh :: rest) =
          bsCh :: 'u' :: (esc4 c.toNat ++ (escList cs ++ qCh :: rest)) by simp,
        parseStrAux_u f c.toNat _ hrange (by omega), hrec]
      simp [Char.ofNat_toNat]
    · have hesc : escChar c =
          (bsCh :: 'u' :: esc4 (55296 + (c.toNat - 65536) / 1024)) ++
            (bsCh :: 'u' :: esc4 (56320 + (c.toNat - 65536) % 1024)) := by
        unfold escChar
        rw [if_neg h1, if_neg h2, if_neg h3, if_neg h4, if_neg h5, if_neg h6, if_neg h7,
          if_neg h8, if_neg h9, if_neg h10]
      have hvalid : c.toNat < 1114112 := by
        rcases c.valid with hv | ⟨_, hv2⟩
        · have hv' : c.toNat < 55296 := hv
          omega
        · exact hv2
      rw [hesc,
        show ((bsCh :: 'u' :: esc4 (55296 + (c.toNat - 65536) / 1024)) ++
            (bsCh :: 'u' :: esc4 (56320 + (c.toNat - 65536) % 1024))) ++
            (escList cs ++ qCh :: rest) =
          bsCh :: 'u' :: (esc4 (55296 + (c.toNat - 65536) / 1024) ++
            (bsCh :: 'u' :: (esc4 (56320 + (c.toNat - 65536) % 1024) ++
              (escList cs ++ qCh :: rest)))) by simp,
        parseStrAux_u2 f c.toNat _ (by omega) hvalid, hrec]
      simp [Char.ofNat_toNat]

theorem escChar_length_pos (c : Char) : 1 ≤ (escChar c).length := by
  unfold escChar
  repeat' split
  all_goals simp [esc4]

theorem escList_length_ge (cs : List Char) : cs.length ≤ (escList cs).length := by
  induction cs with
  | nil => simp [escList]
  | cons c cs ih =>
    rw [escList_cons]
    have := escChar_length_pos c
    simp only [List.length_append, List.length_cons]
    omega

/-- `parseJStr` (whose fuel is the input length) recovers an escaped
string. -/
theorem parseJStr_esc (cs rest : List Char) :
    parseJStr (escList cs ++ qCh :: rest) = some (cs, rest) := by
  apply parseStrAux_esc
  have := escList_length_ge cs
  simp only [List.length_append, List.length_cons]
  omega

theorem skipWs_not {c : Char} (h : isWsCh c = false) (cs : List Char) :
    skipWs (c :: cs) = c :: cs := by
  simp [skipWs, h]

theorem skipWs_nl (cs : List Char) : skipWs ('\n' :: cs) = skipWs cs := rfl

theorem skipWs_space (cs : List Char) : skipWs (' ' :: cs) = skipWs cs := rfl

theorem skipWs_indent (lvl : Nat) (cs : List Char) :
    skipWs (indentSp lvl ++ cs) = skipWs cs := by
  unfold indentSp
  induction 4 * lvl with
  | zero => rfl
  | succ n ih => rw [List.replicate_succ, List.cons_append, skipWs_space, ih]

theorem parseVal_ws (fuel : Nat) (cs cs' : List Char) (h : skipWs cs = skipWs cs') :
    parseVal fuel cs = parseVal fuel cs' := by
  cases fuel with
  | zero => rfl
  | succ f => simp only [parseVal, h]

theorem parseMembers_ws (fuel : Nat) (cs cs' : List Char) (h : skipWs cs = skipWs cs') :
    parseMembers fuel cs = parseMembers fuel cs' := by
  cases fuel with
  | zero => rfl
  | succ f => simp only [parseMembers, h]

theorem skipWs_serMembers (lvl : Nat) (k : String) (v : JVal) (o : JObj) (Y : List Char) :
    ∃ Z, skipWs (serMembers lvl k v o ++ Y) = qCh :: Z := by
  cases o with
  | onil =>
    simp only [serMembers, escString]
    rw [List.append_assoc, skipWs_indent, List.append_assoc, List.cons_append,
      skipWs_not (by decide)]
    exact ⟨_, rfl⟩
  | ocons k2 v2 o2 =>
    simp only [serMembers, escString]
    rw [List.append_assoc, skipWs_indent, List.append_assoc, List.cons_append,
      skipWs_not (by decide)]
    exact ⟨_, rfl⟩

theorem jcost_pos (v : JVal) : 1 ≤ jcost v := by
  cases v <;> simp [jcost]

theorem parse_ser_roundtrip : ∀ fuel : Nat,
    (∀ (v : JVal) (lvl : Nat) (rest : List Char), jcost v ≤ fuel →
      parseVal fuel (serVal lvl v ++ rest) = some (v, rest)) ∧
    (∀ (k : String) (v : JVal) (o : JObj) (lvl2 lvl : Nat) (rest : List Char),
      ocost (.ocons k v o) ≤ fuel →
      parseMembers fuel (serMembers lvl2 k v o ++ '\n' :: (indentSp lvl ++ rbCh :: rest)) =
        some (.ocons k v o, rest)) := by
  intro fuel
  induction fuel with
  | zero =>
    constructor
    · intro v lvl rest hc
      have := jcost_pos v
      omega
    · intro k v o lvl2 lvl rest hc
      simp [ocost] at hc
  | succ fuel ih =>
    constructor
    · intro v lvl rest hc
      cases v with
      | jstr s =>
        rw [show serVal lvl (JVal.jstr s) ++ rest = qCh :: (escList s.data ++ (qCh :: rest)) by
          simp [serVal, escString]]
        show (parseJStr (escList s.data ++ (qCh :: rest))).map
            (fun p => (JVal.jstr (String.mk p.1), p.2)) = some (JVal.jstr s, rest)
        rw [parseJStr_esc]
        rfl
      | jobj o =>
        cases o with
        | onil =>
          rw [show serVal lvl (JVal.jobj JObj.onil) ++ rest = lbCh :: rbCh :: rest by
            simp [serVal, serObj]]
          rfl
        | ocons k v2 o2 =>
          rw [show serVal lvl (JVal.jobj (JObj.ocons k v2 o2)) ++ rest =
              lbCh :: '\n' :: (serMembers (lvl + 1) k v2 o2 ++
                '\n' :: (indentSp lvl ++ rbCh :: rest)) by
            simp [serVal, serObj]]
          obtain ⟨Z, hZ⟩ := skipWs_serMembers (lvl + 1) k v2 o2
            ('\n' :: (indentSp lvl ++ rbCh :: rest))
          show (match skipWs (serMembers (lvl + 1) k v2 o2 ++
              '\n' :: (indentSp lvl ++ rbCh :: rest)) with
            | [] => Option.none
            | c2 :: cs2 =>
              if c2 = rbCh then some (JVal.jobj JObj.onil, cs2)
              else (parseMembers fuel ('\n' :: (serMembers (lvl + 1) k v2 o2 ++
                '\n' :: (indentSp lvl ++ rbCh :: rest)))).map
                  (fun p => (JVal.jobj p.1, p.2))) =
            some (JVal.jobj (JObj.ocons k v2 o2), rest)
          rw [hZ]
          show (parseMembers fuel ('\n' :: (serMembers (lvl + 1) k v2 o2 ++
              '\n' :: (indentSp lvl ++ rbCh :: rest)))).map
            (fun p => (JVal.jobj p.1, p.2)) = some (JVal.jobj (JObj.ocons k v2 o2), rest)
          rw [parseMembers_ws fuel _ _ (skipWs_nl _),
            ih.2 k v2 o2 (lvl + 1) lvl rest (by simp [jcost] at hc; omega)]
          rfl
    · intro k v o lvl2 lvl rest hc
      cases o with
      | onil =>
        have hskip : skipWs (serMembers lvl2 k v JObj.onil ++
            '\n' :: (indentSp lvl ++ rbCh :: rest)) =
            qCh :: (escList k.data ++ (qCh :: (':' :: (' ' :: (serVal lvl2 v ++
              '\n' :: (indentSp lvl ++ rbCh :: rest)))))) := by
          simp only [serMembers, escString]
          rw [List.append_assoc, skipWs_indent, List.append_assoc, List.cons_append,
            skipWs_not (by decide)]
          simp
        rw [parseMembers_ws (fuel + 1) _
          (qCh :: (escList k.data ++ (qCh :: (':' :: (' ' :: (serVal lvl2 v ++
            '\n' :: (indentSp lvl ++ rbCh :: rest))))))) (by rw [hskip]; rfl)]
        show (match parseJStr (escList k.data ++ (qCh :: (':' :: (' ' :: (serVal lvl2 v ++
            '\n' :: (indentSp lvl ++ rbCh :: rest)))))) with
          | Option.none => Option.none
          | some (kchars, cs2) =>
            match skipWs cs2 with
            | [] => Option.none
            | c3 :: cs3 =>
              if c3 = ':' then
                match parseVal fuel cs3 with
                | Option.none => Option.none
                | some (v2, cs4) =>
                  match skipWs cs4 with
                  | [] => Option.none
                  | c5 :: cs5 =>
                    if c5 = ',' then (parseMembers fuel cs5).map
                      (fun p => (JObj.ocons (String.mk kchars) v2 p.1, p.2))
                    else if c5 = rbCh then some (JObj.ocons (String.mk kchars) v2 JObj.onil, cs5)
                    else Option.none
              else Option.none) = some (JObj.ocons k v JObj.onil, rest)
        rw [parseJStr_esc]
        show (match parseVal fuel (' ' :: (serVal lvl2 v ++
            '\n' :: (indentSp lvl ++ rbCh :: rest))) with
          | Option.none => Option.none
          | some (v2, cs4) =>
            match skipWs cs4 with
            | [] => Option.none
            | c5 :: cs5 =>
              if c5 = ',' then (parseMembers fuel cs5).map
                (fun p => (JObj.ocons (String.mk k.data) v2 p.1, p.2))
              else if c5 = rbCh then some (JObj.ocons (String.mk k.data) v2 JObj.onil, cs5)
              else Option.none) = some (JObj.ocons k v JObj.onil, rest)
        rw [parseVal_ws fuel _ _ (skipWs_space _),
          ih.1 v lvl2 _ (by simp [ocost] at hc; omega)]
        show (match skipWs ('\n' :: (indentSp lvl ++ rbCh :: rest)) with
          | [] => Option.none
          | c5 :: cs5 =>
            if c5 = ',' then (parseMembers fuel cs5).map
              (fun p => (JObj.ocons (String.mk k.data) v p.1, p.2))
            else if c5 = rbCh then some (JObj.ocons (String.mk k.data) v JObj.onil, cs5)
            else Option.none) = some (JObj.ocons k v JObj.onil, rest)
        rw [show skipWs ('\n' :: (indentSp lvl ++ rbCh :: rest)) = rbCh :: rest by
          rw [skipWs_nl, skipWs_indent, skipWs_not (by decide)]]
        rfl
      | ocons k2 v2 o2 =>
        have hskip : skipWs (serMembers lvl2 k v (JObj.ocons k2 v2 o2) ++
            '\n' :: (indentSp lvl ++ rbCh :: rest)) =
            qCh :: (escList k.data ++ (qCh :: (':' :: (' ' :: (serVal lvl2 v ++
              (',' :: ('\n' :: (serMembers lvl2 k2 v2 o2 ++
                '\n' :: (indentSp lvl ++ rbCh :: rest))))))))) := by
          simp only [serMembers, escString]
          rw [List.append_assoc, skipWs_indent, List.append_assoc, List.cons_append,
            skipWs_not (by decide)]
          simp
        rw [parseMembers_ws (fuel + 1) _
          (qCh :: (escList k.data ++ (qCh :: (':' :: (' ' :: (serVal lvl2 v ++
            (',' :: ('\n' :: (serMembers lvl2 k2 v2 o2 ++
              '\n' :: (indentSp lvl ++ rbCh :: rest)))))))))) (by rw [hskip]; rfl)]
        show (match parseJStr (escList k.data ++ (qCh :: (':' :: (' ' :: (serVal lvl2 v ++
            (',' :: ('\n' :: (serMembers lvl2 k2 v2 o2 ++
              '\n' :: (indentSp lvl ++ rbCh :: rest))))))))) with
          | Option.none => Option.none
          | some (kchars, cs2) =>
            match skipWs cs2 with
            | [] => Option.none
            | c3 :: cs3 =>
              if c3 = ':' then
                match parseVal fuel cs3 with
                | Option.none => Option.none
                | some (w, cs4) =>
                  match skipWs cs4 with
                  | [] => Option.none
                  | c5 :: cs5 =>
                    if c5 = ',' then (parseMembers fuel cs5).map
                      (fun p => (JObj.ocons (String.mk kchars) w p.1, p.2))
                    else if c5 = rbCh then some (JObj.ocons (String.mk kchars) w JObj.onil, cs5)
                    else Option.none
              else Option.none) = some (JObj.ocons k v (JObj.ocons k2 v2 o2), rest)
        rw [parseJStr_esc]
        show (match parseVal fuel (' ' :: (serVal lvl2 v ++
            (',' :: ('\n' :: (serMembers lvl2 k2 v2 o2 ++
              '\n' :: (indentSp lvl ++ rbCh :: rest)))))) with
          | Option.none => Option.none
          | some (w, cs4) =>
            match skipWs cs4 with
            | [] => Option.none
            | c5 :: cs5 =>
              if c5 = ',' then (parseMembers fuel cs5).map
                (fun p => (JObj.ocons (String.mk k.data) w p.1, p.2))
              else if c5 = rbCh then some (JObj.ocons (String.mk k.data) w JObj.onil, cs5)
              else Option.none) = some (JObj.ocons k v (JObj.ocons k2 v2 o2), rest)
        rw [parseVal_ws fuel _ _ (skipWs_space _),
          ih.1 v lvl2 _ (by simp [ocost] at hc; omega)]
        show (parseMembers fuel ('\n' :: (serMembers lvl2 k2 v2 o2 ++
            '\n' :: (indentSp lvl ++ rbCh :: rest)))).map
            (fun p => (JObj.ocons (String.mk k.data) v p.1, p.2)) =
          some (JObj.ocons k v (JObj.ocons k2 v2 o2), rest)
        rw [parseMembers_ws fuel _ _ (skipWs_nl _),
          ih.2 k2 v2 o2 lvl2 lvl rest (by
            have h1 : ocost (JObj.ocons k v (JObj.ocons k2 v2 o2)) =
                1 + max (jcost v) (ocost (JObj.ocons k2 v2 o2)) := by simp [ocost]
            rw [h1] at hc
            omega)]
        rfl

mutual
theorem jcost_le (v : JVal) : ∀ lvl, jcost v ≤ (serVal lvl v).length := by
  cases v with
  | jstr s =>
    intro lvl
    simp [jcost, serVal, escString]
  | jobj o =>
    intro lvl
    have h := serObj_cost_le o lvl
    simp only [jcost, serVal]
    omega
termination_by sizeOf v
theorem serObj_cost_le (o : JObj) : ∀ lvl, 1 + ocost o ≤ (serObj lvl o).length := by
  cases o with
  | onil =>
    intro lvl
    simp [ocost, serObj]
  | ocons k v o =>
    intro lvl
    have h := serMembers_cost_le k v o (lvl + 1)
    simp only [ocost, serObj, List.length_cons, List.length_append, indentSp,
      List.length_replicate] at h ⊢
    omega
termination_by sizeOf o
theorem serMembers_cost_le (k : String) (v : JVal) (o : JObj) :
    ∀ lvl, ocost (JObj.ocons k v o) ≤ (serMembers lvl k v o).length := by
  cases o with
  | onil =>
    intro lvl
    have h := jcost_le v lvl
    simp only [ocost, serMembers, escString, List.length_append, List.length_cons,
      indentSp, List.length_replicate]
    omega
  | ocons k2 v2 o2 =>
    intro lvl
    have h1 := jcost_le v lvl
    have h2 := serMembers_cost_le k2 v2 o2 lvl
    simp only [ocost, serMembers, escString, List.length_append, List.length_cons,
      indentSp, List.length_replicate] at h2 ⊢
    omega
termination_by sizeOf v + sizeOf o
end

/-- C10: parsing the string produced by `make_json` with a JSON parser
yields the original dictionary: `json.loads(make_json(d)) == d` for every
dictionary whose keys and values are strings, including nested
dictionaries of the same shape. -/
theorem make_json_roundtrip (d : JObj) :
    json_loads (make_json d) = some (JVal.jobj d) := by
  unfold json_loads make_json
  have hfuel : jcost (JVal.jobj d) ≤ (serObj 0 d).length + 1 := by
    have := serObj_cost_le d 0
    simp only [jcost]
    omega
  have hparse : parseVal ((serObj 0 d).length + 1) (serVal 0 (JVal.jobj d) ++ []) =
      some (JVal.jobj d, []) :=
    (parse_ser_roundtrip ((serObj 0 d).length + 1)).1 (JVal.jobj d) 0 [] hfuel
  rw [show serVal 0 (JVal.jobj d) = serObj 0 d by simp [serVal], List.append_nil] at hparse
  rw [show (String.mk (serObj 0 d)).data = serObj 0 d from rfl, hparse]
  rfl
